import Mathlib

/-!
Verification of the core logic of the memory-generator application
(single source file of the repository): the word segmenter and its
highlight lookup, the share codec chain, the speech playback engine
interaction, the history store, and the prompt builder.

Strings from the JavaScript side are modelled at two levels:
- as lists of characters (`List Char`) for the segmenter and prompt logic;
- as lists of UTF-16 code units (`List Nat`) for the share codec, where
  the platform primitives (btoa, encodeURIComponent, JSON) operate at the
  code-unit level.
-/

set_option linter.unusedVariables false

namespace AniMakinesi

/-! ### Word segmenter

The source computes `resultText.match(/\S+\s*/g) || []`: maximal runs of
non-whitespace characters, each with its trailing whitespace attached.
The global regex scan skips characters that cannot start a match, so any
leading whitespace of the input is dropped. `textPartsGo` reproduces the
scan with an explicit fuel argument (the fuel never runs out as long as it
is at least the length of the remaining input). -/

/-- Model of the ECMAScript character class \s used by the source regex. -/
def jsWs (c : Char) : Bool :=
  decide (c.toNat = 9 ∨ c.toNat = 10 ∨ c.toNat = 11 ∨ c.toNat = 12 ∨ c.toNat = 13 ∨
    c.toNat = 32 ∨ c.toNat = 0xA0 ∨ c.toNat = 0x1680 ∨
    (0x2000 ≤ c.toNat ∧ c.toNat ≤ 0x200A) ∨ c.toNat = 0x2028 ∨ c.toNat = 0x2029 ∨
    c.toNat = 0x202F ∨ c.toNat = 0x205F ∨ c.toNat = 0x3000 ∨ c.toNat = 0xFEFF)

/-- One step of the global regex scan for /\S+\s*/g: skip a character that
cannot start a match, otherwise take the maximal non-whitespace run plus its
trailing whitespace and continue after it. -/
def textPartsGo : Nat → List Char → List (List Char)
  | 0, _ => []
  | _ + 1, [] => []
  | fuel + 1, c :: cs =>
    if jsWs c then textPartsGo fuel cs
    else
      let w := (c :: cs).takeWhile (fun x => !jsWs x)
      let r1 := (c :: cs).dropWhile (fun x => !jsWs x)
      (w ++ r1.takeWhile jsWs) :: textPartsGo fuel (r1.dropWhile jsWs)

/-- The parts list `textParts`: the list of word-plus-trailing-whitespace parts of the text
(`resultText.match(/\S+\s*/g) || []` in the source). -/
def textParts (s : List Char) : List (List Char) := textPartsGo s.length s

/-- The `useMemo` guard in the source: falsy text (undefined or the empty
string) yields the empty part list without running the regex. -/
def textPartsOpt : Option (List Char) → List (List Char)
  | none => []
  | some s => if s.isEmpty then [] else textParts s

/-- The `wordMap` accumulation: each part is paired with the running character
count of the parts before it. -/
def wordMapGo : List (List Char) → Nat → List (List Char × Nat)
  | [], _ => []
  | p :: rest, n => (p, n) :: wordMapGo rest (n + p.length)

/-- The word map of the source: every part together with its starting
character offset (the source returns `[]` for an empty part list, which
`wordMapGo` already does). -/
def wordMap (parts : List (List Char)) : List (List Char × Nat) :=
  wordMapGo parts 0

/-! ### Boundary-event highlight lookup

The onboundary handler scans the word map in order, remembering the index of
every span whose start offset is at most the reported character index, and
stops at the first span that starts beyond it; the highlighted index is
updated only when the scan found a span. -/

/-- The linear scan of the onboundary handler: `i` is the index of the next
span, `cur` the best index found so far (-1 when none). -/
def boundaryScanGo : List (List Char × Nat) → Nat → Nat → Int → Int
  | [], _, _, cur => cur
  | sp :: rest, c, i, cur =>
    if sp.2 ≤ c then boundaryScanGo rest c (i + 1) (i : Int) else cur

/-- The index computed for a boundary event with character offset `c`. -/
def boundaryScan (wm : List (List Char × Nat)) (c : Nat) : Int :=
  boundaryScanGo wm c 0 (-1)

/-- The handler assigns the scanned index to the highlighted index only when
the scan produced one (`if (currentWordIndex !== -1)` in the source). -/
def applyBoundary (wm : List (List Char × Nat)) (h : Int) (c : Nat) : Int :=
  if boundaryScan wm c = -1 then h else boundaryScan wm c

/-- Highlighted index after each boundary event of a sequence, in order. -/
def highlightTrace (wm : List (List Char × Nat)) : Int → List Nat → List Int
  | _, [] => []
  | h, c :: cs => applyBoundary wm h c :: highlightTrace wm (applyBoundary wm h c) cs

/-- Strictly increasing list of character offsets. -/
def strictIncr : List Nat → Bool
  | [] => true
  | [_] => true
  | a :: b :: r => decide (a < b) && strictIncr (b :: r)

/-- Non-decreasing list of highlight indices. -/
def nonDecr : List Int → Bool
  | [] => true
  | [_] => true
  | a :: b :: r => decide (a ≤ b) && nonDecr (b :: r)

/-- Number of leading spans whose start offset is at most `c`. -/
def hitCount (wm : List (List Char × Nat)) (c : Nat) : Nat :=
  (wm.takeWhile (fun sp => decide (sp.2 ≤ c))).length

/-! ### Highlighted-index state machine (claim C10)

Events that touch the highlighted index: the start acknowledgment of the
utterance sets it to 0, a boundary event applies the scan, end and error
clear it, and pressing play anew or loading from history resets it. -/

inductive HEvent where
  | startAck
  | boundary (c : Nat)
  | ended
  | errored
  | reset

def hStep (wm : List (List Char × Nat)) (h : Int) : HEvent → Int
  | .startAck => 0
  | .boundary c => applyBoundary wm h c
  | .ended => -1
  | .errored => -1
  | .reset => -1

/-- The range invariant of the highlighted index. -/
def hInv (wm : List (List Char × Nat)) (h : Int) : Prop :=
  h = -1 ∨ (0 ≤ h ∧ h < (wm.length : Int))

/-! ### Speech playback engine interaction (claim C5)

The speech synthesis engine is modelled by its utterance queue: `speak`
appends an utterance, `cancel` clears the queue. The play/pause button
handler either pauses, resumes, or cancels-then-speaks; the unmount cleanup
cancels when the engine is speaking. The component flags mirror the onstart
and onend/onerror callbacks. -/

def engineSpeak (q : List (List Char)) (u : List Char) : List (List Char) := q ++ [u]

def engineCancel (q : List (List Char)) : List (List Char) := []

/-- The start branch of handlePlayToggle: `speechSynthesis.cancel()` always
precedes `speechSynthesis.speak(utterance)`. -/
def startUtterance (q : List (List Char)) (u : List Char) : List (List Char) :=
  engineSpeak (engineCancel q) u

structure PlaybackState where
  queue : List (List Char)
  speakingFlag : Bool
  pausedFlag : Bool

def initPlayback : PlaybackState := ⟨[], false, false⟩

inductive PlayOp where
  | playToggle (text : List Char)
  | engineStarted
  | engineEnded
  | engineErrored
  | teardown

/-- One interaction step: the toggle handler dispatches on the component
flags (pause when speaking, resume when paused, otherwise cancel and speak);
engine callbacks update the flags and remove the finished utterance; the
unmount cleanup cancels while speaking. -/
def playStep (s : PlaybackState) : PlayOp → PlaybackState
  | .playToggle text =>
    if text.isEmpty then s
    else if s.speakingFlag && !s.pausedFlag then { s with pausedFlag := true }
    else if s.speakingFlag && s.pausedFlag then { s with pausedFlag := false }
    else { s with queue := startUtterance s.queue text }
  | .engineStarted => { s with speakingFlag := true, pausedFlag := false }
  | .engineEnded => ⟨s.queue.drop 1, false, false⟩
  | .engineErrored => ⟨s.queue.drop 1, false, false⟩
  | .teardown => if s.queue.isEmpty then s else { s with queue := engineCancel s.queue }

/-! ### Prompt builder (getPrompts)

Exact transcription of the template strings of the source. The narrative
prompt is the base instruction followed by a category tone clause (the
switch shares one body for the "general" case and the default); the image
prompt is the base description, a category clause (absent for "general" and
for unrecognized categories) and a style rendering clause ("faded-photo"
shares the default body). -/

def narrBase (userQuery : String) : String :=
  "Kullanıcının şu kelimelerinden yola çıkarak 90\x27lar Türkiye\x27sindeki bir çocukluk anısını anlatan, kısa, şiirsel ve nostaljik bir metin yaz: \"" ++ userQuery ++ "\". Tonu sıcak, biraz hüzünlü ve rüya gibi olsun."

def toneClause (selectedCategory : String) : String :=
  if selectedCategory = "cartoon" then
    " Bu anıyı, sanki 90\x27ların pastel tonlu, iç ısıtan bir çizgi filminin unutulmuş bir sahnesi gibi anlat."
  else if selectedCategory = "series" then
    " Bu anıyı, 90\x27lar yapımı bir Türk aile dizisinin sıcak bir sahnesi gibi, o dönemin diyaloglarına benzer bir naiflikle anlat."
  else if selectedCategory = "clip" then
    " Bu anıyı, 90\x27lar Türkçe pop müziği video klibinin şiirsel ve biraz da absürt bir sahnesi gibi anlat."
  else if selectedCategory = "dream" then
    " Bu anıyı, gerçeküstü ve sembolik imgelerle dolu bir rüya sahnesi gibi anlat."
  else if selectedCategory = "fairytale" then
    " Bu anıyı, sanki eski bir masal kitabından fırlamış, büyülü bir illüstrasyonun hikayesi gibi anlat."
  else if selectedCategory = "scifi" then
    " Bu anıyı, 90\x27ların retro-fütüristik bir bilim kurgu konsept çizimi gibi, o dönemin gelecek tasavvurunu yansıtarak anlat."
  else
    " Sanki eski bir anı günlüğünden bir parça gibi hissettirsin."

def imgBase (userQuery : String) : String :=
  "A dream-like, nostalgic, and slightly surreal image representing a Turkish childhood memory about \"" ++ userQuery ++ "\". Avoid clear faces. Capture the feeling and atmosphere. No text."

def catClause (selectedCategory : String) : String :=
  if selectedCategory = "cartoon" then
    " The scene should feel like a vintage 90s animation cel from a classic, gentle cartoon. Use soft, pastel colors."
  else if selectedCategory = "series" then
    " The scene should look like a cinematic still from a 90s Turkish television drama. Slightly grainy with warm color grading."
  else if selectedCategory = "clip" then
    " The scene must emulate the aesthetic of a 90s Turkish pop music video: dreamy, slightly surreal, with soft focus and lens flares."
  else if selectedCategory = "dream" then
    " The scene should be highly surreal, symbolic, and dream-like, with illogical connections and a hazy, ethereal quality."
  else if selectedCategory = "fairytale" then
    " The scene should look like a beautiful, classic fairy tale book illustration, with enchanting details and a magical atmosphere."
  else if selectedCategory = "scifi" then
    " The scene should be a piece of retro-futuristic sci-fi concept art from the 90s. Imagine technology and daily life as envisioned in that era, with chunky hardware, neon glows, and a slightly analog feel."
  else
    ""

def styleClause (selectedStyle : String) : String :=
  if selectedStyle = "watercolor" then
    " Render this scene in the style of a soft, expressive watercolor painting."
  else if selectedStyle = "sketch" then
    " Render this scene as a nostalgic, hand-drawn pencil sketch on textured paper."
  else if selectedStyle = "oil-painting" then
    " Render this scene as a classic, textured oil painting with visible brushstrokes."
  else if selectedStyle = "pixel-art" then
    " Render this scene as vibrant, detailed 16-bit pixel art, in the style of a classic 90s video game."
  else if selectedStyle = "3d-render" then
    " Render this scene as an early 90s 3D render, with simple geometry, basic lighting, and a slightly plastic-like texture."
  else if selectedStyle = "vintage-poster" then
    " Render this scene as a vintage poster from the 1990s, with bold graphic elements and a retro color palette. Avoid any legible text."
  else
    " The final image must have the look of a warm, retro, faded photograph from the 90s."

/-- Model of `getPrompts` of the source: builds the narrative prompt by the category
switch over the base instruction, then the image prompt by appending the
category clause (absent for "general" and unknown categories) and the style
clause to the base description. -/
def getPrompts (selectedCategory userQuery selectedStyle : String) : String × String :=
  let baseTextPrompt := narrBase userQuery
  let textPrompt :=
    if selectedCategory = "cartoon" then baseTextPrompt ++ toneClause "cartoon"
    else if selectedCategory = "series" then baseTextPrompt ++ toneClause "series"
    else if selectedCategory = "clip" then baseTextPrompt ++ toneClause "clip"
    else if selectedCategory = "dream" then baseTextPrompt ++ toneClause "dream"
    else if selectedCategory = "fairytale" then baseTextPrompt ++ toneClause "fairytale"
    else if selectedCategory = "scifi" then baseTextPrompt ++ toneClause "scifi"
    else baseTextPrompt ++ toneClause "general"
  let imagePrompt0 := imgBase userQuery
  let imagePrompt1 :=
    if selectedCategory = "cartoon" then imagePrompt0 ++ catClause "cartoon"
    else if selectedCategory = "series" then imagePrompt0 ++ catClause "series"
    else if selectedCategory = "clip" then imagePrompt0 ++ catClause "clip"
    else if selectedCategory = "dream" then imagePrompt0 ++ catClause "dream"
    else if selectedCategory = "fairytale" then imagePrompt0 ++ catClause "fairytale"
    else if selectedCategory = "scifi" then imagePrompt0 ++ catClause "scifi"
    else imagePrompt0
  let imagePrompt :=
    if selectedStyle = "watercolor" then imagePrompt1 ++ styleClause "watercolor"
    else if selectedStyle = "sketch" then imagePrompt1 ++ styleClause "sketch"
    else if selectedStyle = "oil-painting" then imagePrompt1 ++ styleClause "oil-painting"
    else if selectedStyle = "pixel-art" then imagePrompt1 ++ styleClause "pixel-art"
    else if selectedStyle = "3d-render" then imagePrompt1 ++ styleClause "3d-render"
    else if selectedStyle = "vintage-poster" then imagePrompt1 ++ styleClause "vintage-poster"
    else imagePrompt1 ++ styleClause "faded-photo"
  (textPrompt, imagePrompt)

def recognizedCategory (c : String) : Bool :=
  decide (c = "general" ∨ c = "cartoon" ∨ c = "series" ∨ c = "clip" ∨
    c = "dream" ∨ c = "fairytale" ∨ c = "scifi")

def recognizedStyle (s : String) : Bool :=
  decide (s = "faded-photo" ∨ s = "watercolor" ∨ s = "sketch" ∨
    s = "oil-painting" ∨ s = "pixel-art" ∨ s = "3d-render" ∨ s = "vintage-poster")

/-! ### Share codec: platform primitives

The share codec of the source is
`encodeURIComponent(btoa(JSON.stringify(data)))` on the encoding side and
`JSON.parse(atob(decodeURIComponent(token)))` inside a try/catch on the
decoding side. The platform primitives are modelled on lists of UTF-16 code
units; every failure a primitive can raise (URIError, InvalidCharacterError,
SyntaxError) is modelled as `none`. -/

/-- Units of a character literal string, for writing concrete code-unit
lists readably (all literals used this way are in the BMP). -/
def strUnits (s : String) : List Nat := s.data.map Char.toNat

def hexVal (c : Nat) : Option Nat :=
  if 48 ≤ c ∧ c ≤ 57 then some (c - 48)
  else if 65 ≤ c ∧ c ≤ 70 then some (c - 55)
  else if 97 ≤ c ∧ c ≤ 102 then some (c - 87)
  else none

/-- Upper-case hex digit (percent-encoding). -/
def hexUp (n : Nat) : Nat := if n < 10 then 48 + n else 55 + n

/-- Lower-case hex digit (JSON string escapes). -/
def hexLow (n : Nat) : Nat := if n < 10 then 48 + n else 87 + n

def utf8Bytes (v : Nat) : List Nat :=
  if v < 0x80 then [v]
  else if v < 0x800 then [0xC0 + v / 64, 0x80 + v % 64]
  else if v < 0x10000 then [0xE0 + v / 4096, 0x80 + v / 64 % 64, 0x80 + v % 64]
  else [0xF0 + v / 262144, 0x80 + v / 4096 % 64, 0x80 + v / 64 % 64, 0x80 + v % 64]

def uriUnreserved (c : Nat) : Bool :=
  decide ((65 ≤ c ∧ c ≤ 90) ∨ (97 ≤ c ∧ c ≤ 122) ∨ (48 ≤ c ∧ c ≤ 57) ∨
    c = 45 ∨ c = 46 ∨ c = 95 ∨ c = 126 ∨ c = 33 ∨ c = 42 ∨ c = 39 ∨ c = 40 ∨ c = 41)

def pctBytes (bs : List Nat) : List Nat :=
  (bs.map (fun b => [37, hexUp (b / 16), hexUp (b % 16)])).flatten

/-- encodeURIComponent: unreserved characters pass, everything else is
UTF-8 percent-encoded (pairing surrogates; a lone surrogate raises). -/
def encodeURIComponent : List Nat → Option (List Nat)
  | [] => some []
  | c :: rest =>
    if uriUnreserved c then
      match encodeURIComponent rest with
      | some t => some (c :: t)
      | none => none
    else if 0xD800 ≤ c ∧ c ≤ 0xDBFF then
      match rest with
      | d :: rest2 =>
        if 0xDC00 ≤ d ∧ d ≤ 0xDFFF then
          match encodeURIComponent rest2 with
          | some t =>
            some (pctBytes (utf8Bytes (0x10000 + (c - 0xD800) * 1024 + (d - 0xDC00))) ++ t)
          | none => none
        else none
      | [] => none
    else if 0xDC00 ≤ c ∧ c ≤ 0xDFFF then none
    else
      match encodeURIComponent rest with
      | some t => some (pctBytes (utf8Bytes c) ++ t)
      | none => none

/-- decodeURIComponent: literal characters pass; a percent sequence decodes
one strict UTF-8 sequence (overlong forms, surrogates, values beyond
U+10FFFF and malformed hex raise); values above U+FFFF yield a surrogate
pair of code units. -/
def decodeURIComponent : List Nat → Option (List Nat)
  | [] => some []
  | c :: rest =>
    if c = 37 then
      match rest with
      | h1 :: h2 :: rest2 =>
        match hexVal h1, hexVal h2 with
        | some a, some b =>
          let B := a * 16 + b
          if B < 0x80 then
            match decodeURIComponent rest2 with
            | some t => some (B :: t)
            | none => none
          else if B < 0xC2 then none
          else if B < 0xE0 then
            match rest2 with
            | 37 :: g1 :: g2 :: rest3 =>
              match hexVal g1, hexVal g2 with
              | some a2, some b2 =>
                let B2 := a2 * 16 + b2
                if 0x80 ≤ B2 ∧ B2 ≤ 0xBF then
                  match decodeURIComponent rest3 with
                  | some t => some (((B - 0xC0) * 64 + (B2 - 0x80)) :: t)
                  | none => none
                else none
              | _, _ => none
            | _ => none
          else if B < 0xF0 then
            match rest2 with
            | 37 :: g1 :: g2 :: 37 :: g3 :: g4 :: rest3 =>
              match hexVal g1, hexVal g2, hexVal g3, hexVal g4 with
              | some a2, some b2, some a3, some b3 =>
                let B2 := a2 * 16 + b2
                let B3 := a3 * 16 + b3
                if 0x80 ≤ B2 ∧ B2 ≤ 0xBF ∧ 0x80 ≤ B3 ∧ B3 ≤ 0xBF then
                  let v := (B - 0xE0) * 4096 + (B2 - 0x80) * 64 + (B3 - 0x80)
                  if v < 0x800 then none
                  else if 0xD800 ≤ v ∧ v ≤ 0xDFFF then none
                  else
                    match decodeURIComponent rest3 with
                    | some t => some (v :: t)
                    | none => none
                else none
              | _, _, _, _ => none
            | _ => none
          else if B < 0xF5 then
            match rest2 with
            | 37 :: g1 :: g2 :: 37 :: g3 :: g4 :: 37 :: g5 :: g6 :: rest3 =>
              match hexVal g1, hexVal g2, hexVal g3, hexVal g4, hexVal g5, hexVal g6 with
              | some a2, some b2, some a3, some b3, some a4, some b4 =>
                let B2 := a2 * 16 + b2
                let B3 := a3 * 16 + b3
                let B4 := a4 * 16 + b4
                if 0x80 ≤ B2 ∧ B2 ≤ 0xBF ∧ 0x80 ≤ B3 ∧ B3 ≤ 0xBF ∧
                    0x80 ≤ B4 ∧ B4 ≤ 0xBF then
                  let v := (B - 0xF0) * 262144 + (B2 - 0x80) * 4096 +
                    (B3 - 0x80) * 64 + (B4 - 0x80)
                  if v < 0x10000 then none
                  else if 0x10FFFF < v then none
                  else
                    match decodeURIComponent rest3 with
                    | some t =>
                      some ((0xD800 + (v - 0x10000) / 1024) ::
                        (0xDC00 + (v - 0x10000) % 1024) :: t)
                    | none => none
                else none
              | _, _, _, _, _, _ => none
            | _ => none
          else none
        | _, _ => none
      | _ => none
    else
      match decodeURIComponent rest with
      | some t => some (c :: t)
      | none => none

def b64Char (n : Nat) : Nat :=
  if n < 26 then 65 + n
  else if n < 52 then 97 + (n - 26)
  else if n < 62 then 48 + (n - 52)
  else if n = 62 then 43
  else 47

def btoaGo : List Nat → List Nat
  | [] => []
  | [x] => [b64Char (x / 4), b64Char (x % 4 * 16), 61, 61]
  | [x, y] => [b64Char (x / 4), b64Char (x % 4 * 16 + y / 16), b64Char (y % 16 * 4), 61]
  | x :: y :: z :: rest =>
    b64Char (x / 4) :: b64Char (x % 4 * 16 + y / 16) ::
      b64Char (y % 16 * 4 + z / 64) :: b64Char (z % 64) :: btoaGo rest

/-- btoa: fails (InvalidCharacterError) on any code unit above U+00FF. -/
def btoa (s : List Nat) : Option (List Nat) :=
  if s.all (fun c => c < 256) then some (btoaGo s) else none

def b64Val (c : Nat) : Option Nat :=
  if 65 ≤ c ∧ c ≤ 90 then some (c - 65)
  else if 97 ≤ c ∧ c ≤ 122 then some (c - 97 + 26)
  else if 48 ≤ c ∧ c ≤ 57 then some (c - 48 + 52)
  else if c = 43 then some 62
  else if c = 47 then some 63
  else none

def asciiWs (c : Nat) : Bool := decide (c = 9 ∨ c = 10 ∨ c = 12 ∨ c = 13 ∨ c = 32)

def stripPad (t : List Nat) : List Nat :=
  match t.reverse with
  | 61 :: 61 :: r => r.reverse
  | 61 :: r => r.reverse
  | _ => t

def b64Decode : List Nat → Option (List Nat)
  | [] => some []
  | c :: rest =>
    match b64Val c, b64Decode rest with
    | some v, some t => some (v :: t)
    | _, _ => none

def atobBits : List Nat → Option (List Nat)
  | [] => some []
  | [_] => none
  | [a, b] => some [a * 4 + b / 16]
  | [a, b, c] => some [a * 4 + b / 16, b % 16 * 16 + c / 4]
  | a :: b :: c :: d :: rest =>
    match atobBits rest with
    | some t => some ((a * 4 + b / 16) :: (b % 16 * 16 + c / 4) :: (c % 4 * 64 + d) :: t)
    | none => none

/-- atob (forgiving base64): strip ASCII whitespace, strip up to two
trailing padding signs when the length is a multiple of four, reject a
length remainder of one and any character outside the alphabet, then
decode sextets to bytes (leftover bits discarded). -/
def atob (s : List Nat) : Option (List Nat) :=
  let t := s.filter (fun c => !asciiWs c)
  let t2 := if t.length % 4 = 0 then stripPad t else t
  if t2.length % 4 = 1 then none
  else
    match b64Decode t2 with
    | some vals => atobBits vals
    | none => none

/-! ### JSON (stringify and parse)

Only the fragment the application produces and consumes is modelled:
values are strings, numbers (kept as their raw digit text), booleans, null,
arrays and objects. `JSON.stringify` escapes quote, backslash and control
characters (with the short escapes of the source format) and, as the
well-formed stringify does, lone surrogates; paired surrogates pass
literally. `JSON.parse` is a recursive-descent parser with an explicit fuel
argument; the fuel `length + 1` used at top level never runs out because
every recursive call first consumes at least one character. -/

def escHex (c : Nat) : List Nat :=
  [92, 117, hexLow (c / 4096 % 16), hexLow (c / 256 % 16), hexLow (c / 16 % 16),
    hexLow (c % 16)]

def escapeStringGo : Nat → List Nat → List Nat
  | 0, _ => []
  | _ + 1, [] => []
  | fuel + 1, c :: rest =>
    if c = 34 then 92 :: 34 :: escapeStringGo fuel rest
    else if c = 92 then 92 :: 92 :: escapeStringGo fuel rest
    else if c = 8 then 92 :: 98 :: escapeStringGo fuel rest
    else if c = 9 then 92 :: 116 :: escapeStringGo fuel rest
    else if c = 10 then 92 :: 110 :: escapeStringGo fuel rest
    else if c = 12 then 92 :: 102 :: escapeStringGo fuel rest
    else if c = 13 then 92 :: 114 :: escapeStringGo fuel rest
    else if c < 32 then escHex c ++ escapeStringGo fuel rest
    else if 0xD800 ≤ c ∧ c ≤ 0xDBFF then
      match rest with
      | d :: rest2 =>
        if 0xDC00 ≤ d ∧ d ≤ 0xDFFF then c :: d :: escapeStringGo fuel rest2
        else escHex c ++ escapeStringGo fuel (d :: rest2)
      | [] => escHex c
    else if 0xDC00 ≤ c ∧ c ≤ 0xDFFF then escHex c ++ escapeStringGo fuel rest
    else c :: escapeStringGo fuel rest

def escapeString (s : List Nat) : List Nat := escapeStringGo s.length s

def printStr (s : List Nat) : List Nat := 34 :: (escapeString s ++ [34])

/-- Decimal digits of a natural number (`Number.prototype.toString` for the
integers the source stores); the fuel argument only needs to be at least
the number itself. -/
def natDecAux : Nat → Nat → List Nat
  | 0, n => [48 + n % 10]
  | fuel + 1, n => if n < 10 then [48 + n] else natDecAux fuel (n / 10) ++ [48 + n % 10]

def natDec (n : Nat) : List Nat := natDecAux n n

def decValue (ds : List Nat) : Nat := ds.foldl (fun acc d => acc * 10 + (d - 48)) 0

inductive Json where
  | str (s : List Nat)
  | num (raw : List Nat)
  | bool (b : Bool)
  | null
  | arr (elems : List Json)
  | obj (fields : List (List Nat × Json))

def jsonWs (c : Nat) : Bool := decide (c = 32 ∨ c = 9 ∨ c = 10 ∨ c = 13)

def skipWs (s : List Nat) : List Nat := s.dropWhile jsonWs

def isDigit (c : Nat) : Bool := decide (48 ≤ c ∧ c ≤ 57)

def escMap (e : Nat) : Option Nat :=
  if e = 34 then some 34
  else if e = 92 then some 92
  else if e = 47 then some 47
  else if e = 98 then some 8
  else if e = 102 then some 12
  else if e = 110 then some 10
  else if e = 114 then some 13
  else if e = 116 then some 9
  else none

/-- Body of a JSON string, after the opening quote. -/
def parseStringBody : List Nat → Option (List Nat × List Nat)
  | [] => none
  | c :: rest =>
    if c = 34 then some ([], rest)
    else if c = 92 then
      match rest with
      | [] => none
      | e :: rest2 =>
        if e = 117 then
          match rest2 with
          | h1 :: h2 :: h3 :: h4 :: rest3 =>
            match hexVal h1, hexVal h2, hexVal h3, hexVal h4 with
            | some a, some b, some cc, some d =>
              match parseStringBody rest3 with
              | some (t, r) => some ((a * 4096 + b * 256 + cc * 16 + d) :: t, r)
              | none => none
            | _, _, _, _ => none
          | _ => none
        else
          match escMap e with
          | some v =>
            match parseStringBody rest2 with
            | some (t, r) => some (v :: t, r)
            | none => none
          | none => none
    else if c < 32 then none
    else
      match parseStringBody rest with
      | some (t, r) => some (c :: t, r)
      | none => none

def expDigits (raw : List Nat) (c : Nat) (sgn : List Nat) (s2 : List Nat) :
    Option (List Nat × List Nat) :=
  if s2.takeWhile isDigit = [] then none
  else some (raw ++ c :: sgn ++ s2.takeWhile isDigit, s2.dropWhile isDigit)

def parseExpPart (raw : List Nat) : List Nat → Option (List Nat × List Nat)
  | [] => some (raw, [])
  | c :: rest =>
    if c = 101 ∨ c = 69 then
      match rest with
      | c2 :: r2 =>
        if c2 = 43 then expDigits raw c [43] r2
        else if c2 = 45 then expDigits raw c [45] r2
        else expDigits raw c [] (c2 :: r2)
      | [] => none
    else some (raw, c :: rest)

def parseFracPart (raw : List Nat) : List Nat → Option (List Nat × List Nat)
  | [] => some (raw, [])
  | c :: rest =>
    if c = 46 then
      if rest.takeWhile isDigit = [] then none
      else parseExpPart (raw ++ 46 :: rest.takeWhile isDigit) (rest.dropWhile isDigit)
    else parseExpPart raw (c :: rest)

def parseNumberBody (s : List Nat) : Option (List Nat × List Nat) :=
  if s.takeWhile isDigit = [] then none
  else if 1 < (s.takeWhile isDigit).length ∧ (s.takeWhile isDigit).head? = some 48 then none
  else parseFracPart (s.takeWhile isDigit) (s.dropWhile isDigit)

def parseNumber (s : List Nat) : Option (List Nat × List Nat) :=
  match s with
  | [] => none
  | c :: rest =>
    if c = 45 then
      match parseNumberBody rest with
      | some (raw, r) => some (45 :: raw, r)
      | none => none
    else parseNumberBody s

mutual

def parseValueF : Nat → List Nat → Option (Json × List Nat)
  | 0, _ => none
  | f + 1, s =>
    match skipWs s with
    | [] => none
    | c :: r =>
      if c = 123 then parseMembersF f r
      else if c = 91 then parseElemsF f r
      else if c = 34 then
        match parseStringBody r with
        | some (t, r2) => some (.str t, r2)
        | none => none
      else if c = 116 then
        match r with
        | 114 :: 117 :: 101 :: r2 => some (.bool true, r2)
        | _ => none
      else if c = 102 then
        match r with
        | 97 :: 108 :: 115 :: 101 :: r2 => some (.bool false, r2)
        | _ => none
      else if c = 110 then
        match r with
        | 117 :: 108 :: 108 :: r2 => some (.null, r2)
        | _ => none
      else if c = 45 ∨ isDigit c then
        match parseNumber (c :: r) with
        | some (raw, r2) => some (.num raw, r2)
        | none => none
      else none

def parseMembersF : Nat → List Nat → Option (Json × List Nat)
  | 0, _ => none
  | f + 1, s =>
    match skipWs s with
    | [] => none
    | c :: r =>
      if c = 125 then some (.obj [], r)
      else if c = 34 then
        match parseStringBody r with
        | some (k, r2) =>
          match skipWs r2 with
          | c2 :: r3 =>
            if c2 = 58 then
              match parseValueF f r3 with
              | some (v, r4) =>
                match parseMembersRestF f r4 with
                | some (tl, r5) => some (.obj ((k, v) :: tl), r5)
                | none => none
              | none => none
            else none
          | [] => none
        | none => none
      else none

def parseMembersRestF : Nat → List Nat → Option (List (List Nat × Json) × List Nat)
  | 0, _ => none
  | f + 1, s =>
    match skipWs s with
    | [] => none
    | c :: r =>
      if c = 125 then some ([], r)
      else if c = 44 then
        match skipWs r with
        | c1 :: r1 =>
          if c1 = 34 then
            match parseStringBody r1 with
            | some (k, r2) =>
              match skipWs r2 with
              | c2 :: r3 =>
                if c2 = 58 then
                  match parseValueF f r3 with
                  | some (v, r4) =>
                    match parseMembersRestF f r4 with
                    | some (tl, r5) => some ((k, v) :: tl, r5)
                    | none => none
                  | none => none
                else none
              | [] => none
            | none => none
          else none
        | [] => none
      else none

def parseElemsF : Nat → List Nat → Option (Json × List Nat)
  | 0, _ => none
  | f + 1, s =>
    match skipWs s with
    | [] => none
    | c :: r =>
      if c = 93 then some (.arr [], r)
      else
        match parseValueF f s with
        | some (v, r2) =>
          match parseElemsRestF f r2 with
          | some (tl, r3) => some (.arr (v :: tl), r3)
          | none => none
        | none => none

def parseElemsRestF : Nat → List Nat → Option (List Json × List Nat)
  | 0, _ => none
  | f + 1, s =>
    match skipWs s with
    | [] => none
    | c :: r =>
      if c = 93 then some ([], r)
      else if c = 44 then
        match parseValueF f r with
        | some (v, r2) =>
          match parseElemsRestF f r2 with
          | some (tl, r3) => some (v :: tl, r3)
          | none => none
        | none => none
      else none

end

/-- Model of `JSON.parse`: parse one value and require only whitespace after it. -/
def jsonParse (s : List Nat) : Option Json :=
  match parseValueF (s.length + 1) s with
  | some (j, r) => if skipWs r = [] then some j else none
  | none => none

/-! ### The share codec of the source -/

structure SharedMemoryData where
  title : List Nat
  query : List Nat
  category : List Nat
  imageStyle : List Nat
  resultText : List Nat
deriving DecidableEq

/-- Model of `JSON.stringify(dataToShare)` for the object literal of handleCopyLink,
with its field order title, resultText, query, category, imageStyle. -/
def stringifyShared (d : SharedMemoryData) : List Nat :=
  [123] ++ printStr (strUnits "title") ++ [58] ++ printStr d.title ++ [44] ++
  printStr (strUnits "resultText") ++ [58] ++ printStr d.resultText ++ [44] ++
  printStr (strUnits "query") ++ [58] ++ printStr d.query ++ [44] ++
  printStr (strUnits "category") ++ [58] ++ printStr d.category ++ [44] ++
  printStr (strUnits "imageStyle") ++ [58] ++ printStr d.imageStyle ++ [125]

/-- handleCopyLink: `encodeURIComponent(btoa(JSON.stringify(dataToShare)))`;
a raised InvalidCharacterError or URIError is `none`. -/
def encodeShared (d : SharedMemoryData) : Option (List Nat) :=
  match btoa (stringifyShared d) with
  | some b64 => encodeURIComponent b64
  | none => none

/-- handleSharedMemory: `JSON.parse(atob(decodeURIComponent(sharedData)))`
inside the try/catch; `none` is the caught-error path that surfaces the
user-facing decode error message. -/
def decodeSharedToken (tok : List Nat) : Option Json :=
  match decodeURIComponent tok with
  | none => none
  | some s =>
    match atob s with
    | none => none
    | some b => jsonParse b

/-- JavaScript property read on a parsed value: a string field of an object
(last duplicate wins, as in JSON.parse); undefined is `none`. -/
def jsonGet (j : Json) (key : List Nat) : Option Json :=
  match j with
  | .obj fs => ((fs.filter (fun p => decide (p.1 = key))).getLast?).map (fun p => p.2)
  | _ => none

def asStr : Option Json → Option (List Nat)
  | some (.str s) => some s
  | _ => none

/-- Reading the five shared fields back out of a decoded value (the
handler reads them without validation; this reader demands all five). -/
def sharedOfJson (j : Json) : Option SharedMemoryData :=
  match asStr (jsonGet j (strUnits "title")), asStr (jsonGet j (strUnits "query")),
      asStr (jsonGet j (strUnits "category")), asStr (jsonGet j (strUnits "imageStyle")),
      asStr (jsonGet j (strUnits "resultText")) with
  | some t, some q, some c, some i, some r =>
    some { title := t, query := q, category := c, imageStyle := i, resultText := r }
  | _, _, _, _, _ => none

/-! ### History store -/

structure Memory where
  id : Nat
  title : List Nat
  query : List Nat
  category : List Nat
  imageStyle : List Nat
  resultText : List Nat
  imageUrl : List Nat
deriving DecidableEq

/-- Model of `JSON.stringify` of one Memory, field order as in handleSetTitle. -/
def printMemory (m : Memory) : List Nat :=
  [123] ++ printStr (strUnits "id") ++ [58] ++ natDec m.id ++ [44] ++
  printStr (strUnits "title") ++ [58] ++ printStr m.title ++ [44] ++
  printStr (strUnits "query") ++ [58] ++ printStr m.query ++ [44] ++
  printStr (strUnits "category") ++ [58] ++ printStr m.category ++ [44] ++
  printStr (strUnits "imageStyle") ++ [58] ++ printStr m.imageStyle ++ [44] ++
  printStr (strUnits "resultText") ++ [58] ++ printStr m.resultText ++ [44] ++
  printStr (strUnits "imageUrl") ++ [58] ++ printStr m.imageUrl ++ [125]

def printMemTail : List Memory → List Nat
  | [] => []
  | m :: rest => 44 :: (printMemory m ++ printMemTail rest)

/-- Model of `JSON.stringify` of the whole history list. -/
def printHistory : List Memory → List Nat
  | [] => [91, 93]
  | m :: rest => 91 :: ((printMemory m ++ printMemTail rest) ++ [93])

def jsonOfMemory (m : Memory) : Json :=
  .obj [(strUnits "id", .num (natDec m.id)),
    (strUnits "title", .str m.title),
    (strUnits "query", .str m.query),
    (strUnits "category", .str m.category),
    (strUnits "imageStyle", .str m.imageStyle),
    (strUnits "resultText", .str m.resultText),
    (strUnits "imageUrl", .str m.imageUrl)]

/-- The history store: the React list state plus the durable snapshot
(`localStorage`, holding the serialized text). -/
structure HistoryStore where
  hist : List Memory
  storage : Option (List Nat)

/-- handleSetTitle persistence: insert the new memory at the head and
overwrite the snapshot with the whole serialized list. -/
def appendMemory (st : HistoryStore) (m : Memory) : HistoryStore :=
  { hist := m :: st.hist, storage := some (printHistory (m :: st.hist)) }

/-- The initial-load effect: read and parse the snapshot; a missing or
falsy snapshot loads nothing; a parse failure loads nothing and removes the
corrupted snapshot. Returns the parsed value and the snapshot after. -/
def loadHistory : Option (List Nat) → Option Json × Option (List Nat)
  | none => (none, none)
  | some s =>
    if s.isEmpty then (none, some s)
    else
      match jsonParse s with
      | some j => (some j, some s)
      | none => (none, none)

def memoryOfJson (j : Json) : Option Memory :=
  match jsonGet j (strUnits "id") with
  | some (.num raw) =>
    match asStr (jsonGet j (strUnits "title")), asStr (jsonGet j (strUnits "query")),
        asStr (jsonGet j (strUnits "category")), asStr (jsonGet j (strUnits "imageStyle")),
        asStr (jsonGet j (strUnits "resultText")), asStr (jsonGet j (strUnits "imageUrl")) with
    | some t, some q, some c, some i, some r, some u =>
      some (Memory.mk (decValue raw) t q c i r u)
    | _, _, _, _, _, _ => none
  | _ => none

def memoriesOfJsonGo : List Json → Option (List Memory)
  | [] => some []
  | j :: rest =>
    match memoryOfJson j, memoriesOfJsonGo rest with
    | some m, some tl => some (m :: tl)
    | _, _ => none

def memoriesOfJson : Json → Option (List Memory)
  | .arr es => memoriesOfJsonGo es
  | _ => none

/-- The spec example datum (ASCII fields). -/
def exampleShared : SharedMemoryData :=
  ⟨strUnits "Bayram", strUnits "misket", strUnits "general", strUnits "faded-photo",
    strUnits "..."⟩

/-- A valid SharedMemoryData whose title holds the Turkish letter ş
(code unit 0x15F, above U+00FF). -/
def turkishShared : SharedMemoryData :=
  ⟨strUnits "ş", strUnits "misket", strUnits "general", strUnits "faded-photo",
    strUnits "ani"⟩

/-- The condition on what follows a serialized number so that the greedy
number parser stops exactly at its end. -/
def numStop (rest : List Nat) : Prop :=
  ∀ c, rest.head? = some c → isDigit c = false ∧ c ≠ 46 ∧ c ≠ 101 ∧ c ≠ 69

def wfStr (s : List Nat) : Prop := ∀ c ∈ s, c < 65536

def wfMemory (m : Memory) : Prop :=
  wfStr m.title ∧ wfStr m.query ∧ wfStr m.category ∧ wfStr m.imageStyle ∧
    wfStr m.resultText ∧ wfStr m.imageUrl

instance (s : List Nat) : Decidable (wfStr s) :=
  inferInstanceAs (Decidable (∀ c ∈ s, c < 65536))

instance (m : Memory) : Decidable (wfMemory m) :=
  inferInstanceAs (Decidable (wfStr m.title ∧ wfStr m.query ∧ wfStr m.category ∧
    wfStr m.imageStyle ∧ wfStr m.resultText ∧ wfStr m.imageUrl))

/-- Concrete memories for the C6 witness. -/
def wMem1 : Memory :=
  ⟨17, strUnits "ş", strUnits "misket", strUnits "general", strUnits "faded-photo",
    strUnits "anı", strUnits "u1"⟩

def wMem2 : Memory :=
  ⟨42, strUnits "Bayram", strUnits "top", strUnits "dream", strUnits "sketch",
    strUnits "yaz", strUnits "u2"⟩

/-! ### Theorems -/

/-! ### Basic list lemmas for the segmenter -/

theorem length_dropWhile_le (p : Char → Bool) (l : List Char) :
    (l.dropWhile p).length ≤ l.length := by
  induction l with
  | nil => simp [List.dropWhile]
  | cons a t ih =>
    by_cases h : p a
    · rw [List.dropWhile_cons_of_pos h]
      exact Nat.le_succ_of_le ih
    · rw [List.dropWhile_cons_of_neg h]

theorem dropWhile_dropWhile_self (p : Char → Bool) (l : List Char) :
    (l.dropWhile p).dropWhile p = l.dropWhile p := by
  induction l with
  | nil => rfl
  | cons a t ih =>
    by_cases h : p a
    · rw [List.dropWhile_cons_of_pos h]
      exact ih
    · rw [List.dropWhile_cons_of_neg h, List.dropWhile_cons_of_neg h]

/-- The fuelled scan concatenates back to the input with its leading
whitespace removed, whenever the fuel covers the input length. -/
theorem textPartsGo_join (fuel : Nat) :
    ∀ s : List Char, s.length ≤ fuel →
      (textPartsGo fuel s).flatten = s.dropWhile jsWs := by
  induction fuel with
  | zero =>
    intro s hs
    have : s = [] := List.length_eq_zero.mp (Nat.le_zero.mp hs)
    subst this
    simp [textPartsGo, List.dropWhile]
  | succ fuel ih =>
    intro s hs
    match s with
    | [] => simp [textPartsGo, List.dropWhile]
    | c :: cs =>
      have hcs : cs.length ≤ fuel := by simpa using hs
      by_cases h : jsWs c
      · have : (textPartsGo (fuel + 1) (c :: cs)) = textPartsGo fuel cs := by
          simp [textPartsGo, h]
        rw [this, ih cs hcs, List.dropWhile_cons_of_pos (by simpa using h)]
      · have hnot : (!jsWs c) = true := by simp [h]
        have hr1 : (c :: cs).dropWhile (fun x => !jsWs x) =
            cs.dropWhile (fun x => !jsWs x) := by
          rw [List.dropWhile_cons_of_pos (p := fun x => !jsWs x) hnot]
        have hlen : (((c :: cs).dropWhile (fun x => !jsWs x)).dropWhile jsWs).length ≤ fuel := by
          rw [hr1]
          calc ((cs.dropWhile (fun x => !jsWs x)).dropWhile jsWs).length
              ≤ (cs.dropWhile (fun x => !jsWs x)).length := length_dropWhile_le _ _
            _ ≤ cs.length := length_dropWhile_le _ _
            _ ≤ fuel := hcs
        have hstep : textPartsGo (fuel + 1) (c :: cs) =
            ((c :: cs).takeWhile (fun x => !jsWs x) ++
              (((c :: cs).dropWhile (fun x => !jsWs x)).takeWhile jsWs)) ::
              textPartsGo fuel (((c :: cs).dropWhile (fun x => !jsWs x)).dropWhile jsWs) := by
          simp [textPartsGo, h]
        rw [hstep]
        simp only [List.flatten_cons]
        rw [ih _ hlen, dropWhile_dropWhile_self]
        rw [List.append_assoc, List.takeWhile_append_dropWhile,
          List.takeWhile_append_dropWhile,
          List.dropWhile_cons_of_neg (by simpa using h)]

/-- The texts carried by the word map are exactly the parts, in order. -/
theorem wordMapGo_map_fst (parts : List (List Char)) :
    ∀ n, (wordMapGo parts n).map Prod.fst = parts := by
  induction parts with
  | nil => intro n; rfl
  | cons p rest ih => intro n; simp [wordMapGo, ih]

/-- Claim C1 is false as stated: for the non-empty input " a" the
concatenation of the produced parts is "a", not " a" (the global regex scan
drops leading whitespace). -/
theorem C1_counterexample :
    ¬ ((textParts [' ', 'a']).flatten = [' ', 'a']) := by decide

/-- Claim C1 (amended): concatenating the parts of `segment(s)` in order
reproduces `s` with its leading whitespace removed; in particular it
reproduces `s` exactly whenever `s` begins with a non-whitespace character,
and the spans carry exactly the part texts in order. -/
theorem C1_segment_concat :
    (∀ s : List Char, (textParts s).flatten = s.dropWhile jsWs) ∧
    (∀ (c : Char) (s : List Char), jsWs c = false →
      (textParts (c :: s)).flatten = c :: s) ∧
    (∀ parts : List (List Char), (wordMap parts).map Prod.fst = parts) := by
  refine ⟨fun s => textPartsGo_join s.length s le_rfl, fun c s hc => ?_,
    fun parts => wordMapGo_map_fst parts 0⟩
  show (textPartsGo (c :: s).length (c :: s)).flatten = c :: s
  rw [textPartsGo_join (c :: s).length (c :: s) le_rfl,
    List.dropWhile_cons_of_neg (by simp [hc])]

/-- Witness for the amended claim C1 at a concrete input. -/
theorem C1_segment_concat_witness :
    jsWs 'a' = false ∧ (textParts ['a', ' ', 'b']).flatten = ['a', ' ', 'b'] :=
  ⟨by decide, C1_segment_concat.2.1 'a' [' ', 'b'] (by decide)⟩

/-- Claim C9: segmentation of the empty string and of an undefined text both
yield the empty sequence (the guard returns [] for falsy input), and the
total function also maps the empty list to []. -/
theorem C9_segment_empty :
    textPartsOpt none = [] ∧ textPartsOpt (some []) = [] ∧ textParts [] = [] := by
  refine ⟨rfl, rfl, rfl⟩

theorem boundaryScanGo_closed (c : Nat) :
    ∀ (wm : List (List Char × Nat)) (i : Nat) (cur : Int),
      boundaryScanGo wm c i cur =
        if hitCount wm c = 0 then cur else ((i + hitCount wm c - 1 : Nat) : Int) := by
  intro wm
  induction wm with
  | nil => intro i cur; simp [boundaryScanGo, hitCount]
  | cons sp rest ih =>
    intro i cur
    by_cases h : sp.2 ≤ c
    · have hc : hitCount (sp :: rest) c = hitCount rest c + 1 := by
        simp [hitCount, List.takeWhile_cons, h]
      rw [show boundaryScanGo (sp :: rest) c i cur = boundaryScanGo rest c (i + 1) (i : Int) by
            simp [boundaryScanGo, h],
        ih (i + 1) (i : Int), hc]
      by_cases h0 : hitCount rest c = 0
      · simp [h0]
      · simp [h0]
    · have hc : hitCount (sp :: rest) c = 0 := by
        simp [hitCount, List.takeWhile_cons, h]
      rw [show boundaryScanGo (sp :: rest) c i cur = cur by simp [boundaryScanGo, h], hc]
      simp

theorem boundaryScan_closed (wm : List (List Char × Nat)) (c : Nat) :
    boundaryScan wm c =
      if hitCount wm c = 0 then (-1 : Int) else ((hitCount wm c - 1 : Nat) : Int) := by
  rw [boundaryScan, boundaryScanGo_closed]
  simp

theorem takeWhile_length_mono {α : Type} (p q : α → Bool)
    (hpq : ∀ a, p a = true → q a = true) :
    ∀ l : List α, (l.takeWhile p).length ≤ (l.takeWhile q).length := by
  intro l
  induction l with
  | nil => simp
  | cons a t ih =>
    by_cases h : p a
    · rw [List.takeWhile_cons_of_pos h, List.takeWhile_cons_of_pos (hpq a h)]
      simpa using ih
    · rw [List.takeWhile_cons_of_neg h]
      simp

theorem takeWhile_length_le {α : Type} (p : α → Bool) (l : List α) :
    (l.takeWhile p).length ≤ l.length := by
  induction l with
  | nil => simp
  | cons a t ih =>
    by_cases h : p a
    · rw [List.takeWhile_cons_of_pos h]; simpa using ih
    · rw [List.takeWhile_cons_of_neg h]; simp

theorem hitCount_mono (wm : List (List Char × Nat)) {c cc : Nat} (hc : c ≤ cc) :
    hitCount wm c ≤ hitCount wm cc := by
  exact takeWhile_length_mono _ _ (fun sp hsp => by
    simp only [decide_eq_true_eq] at hsp ⊢
    omega) wm

theorem hitCount_le_length (wm : List (List Char × Nat)) (c : Nat) :
    hitCount wm c ≤ wm.length := takeWhile_length_le _ wm

theorem boundaryScan_mono (wm : List (List Char × Nat)) {c cc : Nat} (h : c ≤ cc) :
    boundaryScan wm c ≤ boundaryScan wm cc := by
  rw [boundaryScan_closed, boundaryScan_closed]
  have := hitCount_mono wm h
  by_cases h1 : hitCount wm c = 0
  · by_cases h2 : hitCount wm cc = 0
    · simp [h1, h2]
    · simp [h1, h2]
      omega
  · have h2 : ¬ hitCount wm cc = 0 := by omega
    simp only [h1, h2, if_false]
    omega

/-- An index strictly below the takeWhile length points at an element of the
list that satisfies the predicate. -/
theorem get_of_lt_takeWhile {α : Type} (p : α → Bool) :
    ∀ (l : List α) (j : Nat), j < (l.takeWhile p).length →
      ∃ a, l.get? j = some a ∧ p a = true := by
  intro l
  induction l with
  | nil => intro j hj; simp at hj
  | cons a t ih =>
    intro j hj
    by_cases h : p a
    · rw [List.takeWhile_cons_of_pos h] at hj
      match j with
      | 0 => exact ⟨a, rfl, h⟩
      | j + 1 =>
        obtain ⟨b, hb, hpb⟩ := ih j (by simpa using hj)
        exact ⟨b, by simpa using hb, hpb⟩
    · rw [List.takeWhile_cons_of_neg h] at hj
      simp at hj

theorem trace_eq_map (wm : List (List Char × Nat))
    (hne : ∀ c, boundaryScan wm c ≠ -1) :
    ∀ (cs : List Nat) (h : Int), highlightTrace wm h cs = cs.map (boundaryScan wm) := by
  intro cs
  induction cs with
  | nil => intro h; rfl
  | cons c rest ih =>
    intro h
    have : applyBoundary wm h c = boundaryScan wm c := by
      simp [applyBoundary, hne c]
    simp [highlightTrace, this, ih]

theorem trace_nil_replicate (h : Int) :
    ∀ cs : List Nat, highlightTrace [] h cs = List.replicate cs.length h := by
  intro cs
  induction cs generalizing h with
  | nil => rfl
  | cons c rest ih =>
    simp [highlightTrace, applyBoundary, boundaryScan, boundaryScanGo, ih,
      List.replicate_succ]

theorem nonDecr_replicate (h : Int) : ∀ n : Nat, nonDecr (List.replicate n h) = true := by
  intro n
  induction n with
  | zero => rfl
  | succ n ih =>
    match n, ih with
    | 0, _ => rfl
    | m + 1, ih =>
      show (decide (h ≤ h) && nonDecr (List.replicate (m + 1) h)) = true
      rw [Bool.and_eq_true, decide_eq_true_eq]
      exact ⟨le_refl h, ih⟩

theorem nonDecr_map_of_strictIncr (f : Nat → Int)
    (hf : ∀ {a b : Nat}, a ≤ b → f a ≤ f b) :
    ∀ cs : List Nat, strictIncr cs = true → nonDecr (cs.map f) = true := by
  intro cs
  induction cs with
  | nil => intro _; rfl
  | cons a rest ih =>
    intro hs
    match rest, hs, ih with
    | [], _, _ => rfl
    | b :: rest2, hs, ih =>
      have h1 : a < b ∧ strictIncr (b :: rest2) = true := by
        rw [show strictIncr (a :: b :: rest2) =
              (decide (a < b) && strictIncr (b :: rest2)) from rfl,
          Bool.and_eq_true, decide_eq_true_eq] at hs
        exact hs
      have h2 := ih h1.2
      show (decide (f a ≤ f b) && nonDecr (f b :: rest2.map f)) = true
      rw [Bool.and_eq_true, decide_eq_true_eq]
      exact ⟨hf (Nat.le_of_lt h1.1), h2⟩

theorem wordMapGo_length (parts : List (List Char)) :
    ∀ n, (wordMapGo parts n).length = parts.length := by
  induction parts with
  | nil => intro n; rfl
  | cons p rest ih => intro n; simp [wordMapGo, ih]

/-- The scan result is either -1 or a valid index into the word map. -/
theorem boundaryScan_bounds (wm : List (List Char × Nat)) (c : Nat) :
    boundaryScan wm c = -1 ∨
      (0 ≤ boundaryScan wm c ∧ boundaryScan wm c < (wm.length : Int)) := by
  rw [boundaryScan_closed]
  by_cases h : hitCount wm c = 0
  · left
    simp [h]
  · right
    have h1 := hitCount_le_length wm c
    simp only [h, if_false]
    constructor
    · exact Int.natCast_nonneg _
    · omega

/-- For a non-empty word map produced by the segmenter the first span starts
at offset 0, so the scan always finds a span. -/
theorem boundaryScan_ne_neg_one (p : List Char) (rest : List (List Char)) (c : Nat) :
    boundaryScan (wordMap (p :: rest)) c ≠ -1 := by
  have hne : hitCount (wordMap (p :: rest)) c ≠ 0 := by
    show hitCount ((p, 0) :: wordMapGo rest (0 + p.length)) c ≠ 0
    rw [show hitCount ((p, 0) :: wordMapGo rest (0 + p.length)) c =
          ((((p, 0) : List Char × Nat) :: wordMapGo rest (0 + p.length)).takeWhile
            (fun sp => decide (sp.2 ≤ c))).length from rfl,
      List.takeWhile_cons_of_pos (by simp)]
    simp
  rw [boundaryScan_closed]
  simp [hne]

/-- Claim C4: over a fixed text, boundary events with strictly increasing
character offsets produce a non-decreasing sequence of highlighted indices;
any index the scan reports points at a span whose start offset is at most
the reported offset; and when the offset precedes every span offset the
scan reports no span. -/
theorem C4_boundary_sync :
    (∀ (t : List Char) (cs : List Nat), strictIncr cs = true →
      nonDecr (highlightTrace (wordMap (textParts t)) 0 cs) = true) ∧
    (∀ (wm : List (List Char × Nat)) (c i : Nat),
      boundaryScan wm c = (i : Int) →
      ∃ sp, wm[i]? = some sp ∧ sp.2 ≤ c) ∧
    (∀ (wm : List (List Char × Nat)) (c : Nat),
      (∀ sp ∈ wm, c < sp.2) → boundaryScan wm c = -1) := by
  refine ⟨?_, ?_, ?_⟩
  · intro t cs hcs
    match hp : textParts t with
    | [] =>
      rw [show wordMap ([] : List (List Char)) = [] from rfl,
        trace_nil_replicate]
      exact nonDecr_replicate 0 cs.length
    | p :: rest =>
      rw [trace_eq_map _ (boundaryScan_ne_neg_one p rest)]
      exact nonDecr_map_of_strictIncr _ (fun hab => boundaryScan_mono _ hab) cs hcs
  · intro wm c i hscan
    rw [boundaryScan_closed] at hscan
    by_cases h : hitCount wm c = 0
    · rw [if_pos h] at hscan
      omega
    · rw [if_neg h] at hscan
      have hi : i = hitCount wm c - 1 := by omega
      have hlt : i < (wm.takeWhile (fun sp => decide (sp.2 ≤ c))).length := by
        show i < hitCount wm c
        omega
      obtain ⟨sp, hsp, hp⟩ := get_of_lt_takeWhile _ wm i hlt
      refine ⟨sp, ?_, by simpa using hp⟩
      simpa [← List.get?_eq_getElem?] using hsp
  · intro wm c hall
    match wm with
    | [] => rfl
    | sp :: rest =>
      have h0 : hitCount (sp :: rest) c = 0 := by
        rw [show hitCount (sp :: rest) c =
              ((sp :: rest).takeWhile (fun x => decide (x.2 ≤ c))).length from rfl,
          List.takeWhile_cons_of_neg]
        · rfl
        · have := hall sp (by simp)
          simp
          omega
      rw [boundaryScan_closed, if_pos h0]

/-- Witness for claim C4 at concrete inputs. -/
theorem C4_boundary_sync_witness :
    nonDecr (highlightTrace (wordMap (textParts ['a', 'b', ' ', 'c'])) 0 [0, 3]) = true ∧
    (∃ sp, ([(['a'], 0), (['b'], 2)] : List (List Char × Nat))[1]? = some sp ∧ sp.2 ≤ 3) ∧
    boundaryScan [(['a'], 5)] 1 = -1 := by
  refine ⟨C4_boundary_sync.1 ['a', 'b', ' ', 'c'] [0, 3] (by decide),
    C4_boundary_sync.2.1 [(['a'], 0), (['b'], 2)] 3 1 (by decide),
    C4_boundary_sync.2.2 [(['a'], 5)] 1 (by decide)⟩

theorem hStep_preserves (wm : List (List Char × Nat)) (hlen : 1 ≤ wm.length) :
    ∀ (h : Int), hInv wm h → ∀ e : HEvent, hInv wm (hStep wm h e) := by
  intro h hh e
  match e with
  | .startAck =>
    show hInv wm (0 : Int)
    right
    constructor
    · exact le_refl 0
    · omega
  | .boundary c =>
    show hInv wm (applyBoundary wm h c)
    rw [applyBoundary]
    by_cases hs : boundaryScan wm c = -1
    · rw [if_pos hs]; exact hh
    · rw [if_neg hs]
      rcases boundaryScan_bounds wm c with h1 | h1
      · exact absurd h1 hs
      · exact Or.inr h1
  | .ended => left; rfl
  | .errored => left; rfl
  | .reset => left; rfl

theorem hFold_preserves (wm : List (List Char × Nat)) (hlen : 1 ≤ wm.length) :
    ∀ (evs : List HEvent) (h : Int), hInv wm h →
      hInv wm (List.foldl (hStep wm) h evs) := by
  intro evs
  induction evs with
  | nil => intro h hh; exact hh
  | cons e rest ih =>
    intro h hh
    exact ih _ (hStep_preserves wm hlen h hh e)

/-- Claim C10 is false as stated: for the non-empty all-whitespace text " "
the span count is 0, yet the start acknowledgment sets the highlighted index
to 0, which is neither -1 nor below the span count. -/
theorem C10_counterexample :
    ¬ (List.foldl (hStep (wordMap (textParts [' ']))) (-1) [HEvent.startAck] = -1 ∨
       (0 ≤ List.foldl (hStep (wordMap (textParts [' ']))) (-1) [HEvent.startAck] ∧
        List.foldl (hStep (wordMap (textParts [' ']))) (-1) [HEvent.startAck] <
          ((wordMap (textParts [' '])).length : Int))) := by decide

/-- Claim C10 (amended): whenever the text contains at least one
non-whitespace character (so the span sequence is non-empty), the highlighted
index stays -1 or a valid index into the span sequence under every event
sequence starting from the initial -1. -/
theorem C10_highlight_range :
    ∀ (t : List Char) (evs : List HEvent), textParts t ≠ [] →
      List.foldl (hStep (wordMap (textParts t))) (-1) evs = -1 ∨
      (0 ≤ List.foldl (hStep (wordMap (textParts t))) (-1) evs ∧
       List.foldl (hStep (wordMap (textParts t))) (-1) evs <
         ((wordMap (textParts t)).length : Int)) := by
  intro t evs ht
  have hlen : 1 ≤ (wordMap (textParts t)).length := by
    rw [wordMap, wordMapGo_length]
    match h : textParts t with
    | [] => exact absurd h ht
    | p :: rest => simp
  exact hFold_preserves _ hlen evs (-1) (Or.inl rfl)

/-- Witness for the amended claim C10 at a concrete input. -/
theorem C10_highlight_range_witness :
    List.foldl (hStep (wordMap (textParts ['h', 'i']))) (-1)
        [HEvent.startAck, HEvent.boundary 1] = -1 ∨
      (0 ≤ List.foldl (hStep (wordMap (textParts ['h', 'i']))) (-1)
        [HEvent.startAck, HEvent.boundary 1] ∧
       List.foldl (hStep (wordMap (textParts ['h', 'i']))) (-1)
        [HEvent.startAck, HEvent.boundary 1] <
         ((wordMap (textParts ['h', 'i'])).length : Int)) :=
  C10_highlight_range ['h', 'i'] [HEvent.startAck, HEvent.boundary 1] (by decide)

theorem playStep_queue_le (s : PlaybackState) (hs : s.queue.length ≤ 1) :
    ∀ op : PlayOp, (playStep s op).queue.length ≤ 1 := by
  intro op
  match op with
  | .playToggle text =>
    show (if text.isEmpty then s
      else if s.speakingFlag && !s.pausedFlag then { s with pausedFlag := true }
      else if s.speakingFlag && s.pausedFlag then { s with pausedFlag := false }
      else { s with queue := startUtterance s.queue text }).queue.length ≤ 1
    by_cases h1 : text.isEmpty
    · rw [if_pos h1]; exact hs
    · rw [if_neg h1]
      by_cases h2 : s.speakingFlag && !s.pausedFlag
      · rw [if_pos h2]; exact hs
      · rw [if_neg h2]
        by_cases h3 : s.speakingFlag && s.pausedFlag
        · rw [if_pos h3]; exact hs
        · rw [if_neg h3]; rfl
  | .engineStarted => exact hs
  | .engineEnded =>
    show (s.queue.drop 1).length ≤ 1
    rw [List.length_drop]
    omega
  | .engineErrored =>
    show (s.queue.drop 1).length ≤ 1
    rw [List.length_drop]
    omega
  | .teardown =>
    show (if s.queue.isEmpty then s else { s with queue := engineCancel s.queue }).queue.length ≤ 1
    by_cases h1 : s.queue.isEmpty
    · rw [if_pos h1]; exact hs
    · rw [if_neg h1]
      show (([] : List (List Char)).length ≤ 1)
      simp

theorem playFold_queue_le (ops : List PlayOp) :
    ∀ s : PlaybackState, s.queue.length ≤ 1 →
      (List.foldl playStep s ops).queue.length ≤ 1 := by
  induction ops with
  | nil => intro s hs; exact hs
  | cons op rest ih =>
    intro s hs
    exact ih _ (playStep_queue_le s hs op)

/-- Claim C5: in every interaction sequence the engine holds at most one
utterance (cancel always precedes speak, including teardown), and starting
with text A and then with text B leaves exactly the utterance for B in
flight. -/
theorem C5_single_utterance :
    (∀ ops : List PlayOp,
      (List.foldl playStep initPlayback ops).queue.length ≤ 1) ∧
    (∀ (q : List (List Char)) (A B : List Char),
      startUtterance (startUtterance q A) B = [B]) := by
  constructor
  · intro ops
    exact playFold_queue_le ops initPlayback (by simp [initPlayback])
  · intro q A B
    rfl

theorem toneClause_default (c : String)
    (h1 : c ≠ "cartoon") (h2 : c ≠ "series") (h3 : c ≠ "clip") (h4 : c ≠ "dream")
    (h5 : c ≠ "fairytale") (h6 : c ≠ "scifi") :
    toneClause c = toneClause "general" := by
  rw [toneClause, if_neg h1, if_neg h2, if_neg h3, if_neg h4, if_neg h5, if_neg h6,
    toneClause, if_neg (by decide), if_neg (by decide), if_neg (by decide),
    if_neg (by decide), if_neg (by decide), if_neg (by decide)]

theorem catClause_default (c : String)
    (h1 : c ≠ "cartoon") (h2 : c ≠ "series") (h3 : c ≠ "clip") (h4 : c ≠ "dream")
    (h5 : c ≠ "fairytale") (h6 : c ≠ "scifi") :
    catClause c = "" := by
  rw [catClause, if_neg h1, if_neg h2, if_neg h3, if_neg h4, if_neg h5, if_neg h6]

theorem styleClause_default (s : String)
    (h1 : s ≠ "watercolor") (h2 : s ≠ "sketch") (h3 : s ≠ "oil-painting")
    (h4 : s ≠ "pixel-art") (h5 : s ≠ "3d-render") (h6 : s ≠ "vintage-poster") :
    styleClause s = styleClause "faded-photo" := by
  rw [styleClause, if_neg h1, if_neg h2, if_neg h3, if_neg h4, if_neg h5, if_neg h6,
    styleClause, if_neg (by decide), if_neg (by decide), if_neg (by decide),
    if_neg (by decide), if_neg (by decide), if_neg (by decide)]

theorem textSel_eq (c : String) (base : String) :
    (if c = "cartoon" then base ++ toneClause "cartoon"
     else if c = "series" then base ++ toneClause "series"
     else if c = "clip" then base ++ toneClause "clip"
     else if c = "dream" then base ++ toneClause "dream"
     else if c = "fairytale" then base ++ toneClause "fairytale"
     else if c = "scifi" then base ++ toneClause "scifi"
     else base ++ toneClause "general") = base ++ toneClause c := by
  by_cases h1 : c = "cartoon"
  · rw [if_pos h1, h1]
  rw [if_neg h1]
  by_cases h2 : c = "series"
  · rw [if_pos h2, h2]
  rw [if_neg h2]
  by_cases h3 : c = "clip"
  · rw [if_pos h3, h3]
  rw [if_neg h3]
  by_cases h4 : c = "dream"
  · rw [if_pos h4, h4]
  rw [if_neg h4]
  by_cases h5 : c = "fairytale"
  · rw [if_pos h5, h5]
  rw [if_neg h5]
  by_cases h6 : c = "scifi"
  · rw [if_pos h6, h6]
  rw [if_neg h6, toneClause_default c h1 h2 h3 h4 h5 h6]

theorem imageCatSel_eq (c : String) (img : String) :
    (if c = "cartoon" then img ++ catClause "cartoon"
     else if c = "series" then img ++ catClause "series"
     else if c = "clip" then img ++ catClause "clip"
     else if c = "dream" then img ++ catClause "dream"
     else if c = "fairytale" then img ++ catClause "fairytale"
     else if c = "scifi" then img ++ catClause "scifi"
     else img) = img ++ catClause c := by
  by_cases h1 : c = "cartoon"
  · rw [if_pos h1, h1]
  rw [if_neg h1]
  by_cases h2 : c = "series"
  · rw [if_pos h2, h2]
  rw [if_neg h2]
  by_cases h3 : c = "clip"
  · rw [if_pos h3, h3]
  rw [if_neg h3]
  by_cases h4 : c = "dream"
  · rw [if_pos h4, h4]
  rw [if_neg h4]
  by_cases h5 : c = "fairytale"
  · rw [if_pos h5, h5]
  rw [if_neg h5]
  by_cases h6 : c = "scifi"
  · rw [if_pos h6, h6]
  rw [if_neg h6, catClause_default c h1 h2 h3 h4 h5 h6, String.append_empty]

theorem styleSel_eq (s : String) (img : String) :
    (if s = "watercolor" then img ++ styleClause "watercolor"
     else if s = "sketch" then img ++ styleClause "sketch"
     else if s = "oil-painting" then img ++ styleClause "oil-painting"
     else if s = "pixel-art" then img ++ styleClause "pixel-art"
     else if s = "3d-render" then img ++ styleClause "3d-render"
     else if s = "vintage-poster" then img ++ styleClause "vintage-poster"
     else img ++ styleClause "faded-photo") = img ++ styleClause s := by
  by_cases h1 : s = "watercolor"
  · rw [if_pos h1, h1]
  rw [if_neg h1]
  by_cases h2 : s = "sketch"
  · rw [if_pos h2, h2]
  rw [if_neg h2]
  by_cases h3 : s = "oil-painting"
  · rw [if_pos h3, h3]
  rw [if_neg h3]
  by_cases h4 : s = "pixel-art"
  · rw [if_pos h4, h4]
  rw [if_neg h4]
  by_cases h5 : s = "3d-render"
  · rw [if_pos h5, h5]
  rw [if_neg h5]
  by_cases h6 : s = "vintage-poster"
  · rw [if_pos h6, h6]
  rw [if_neg h6, styleClause_default s h1 h2 h3 h4 h5 h6]

/-- Factorisation of the prompt builder into its clauses. -/
theorem getPrompts_eq (c q s : String) :
    getPrompts c q s =
      (narrBase q ++ toneClause c, imgBase q ++ catClause c ++ styleClause s) := by
  show (_, _) = (_, _)
  rw [Prod.mk.injEq]
  constructor
  · exact textSel_eq c (narrBase q)
  · rw [← imageCatSel_eq c (imgBase q)]
    exact styleSel_eq s _

set_option maxRecDepth 4096 in
theorem narrBase_length_pos (q : String) : 0 < (narrBase q).length := by
  rw [narrBase, String.length_append, String.length_append]
  have h0 : 0 < (narrBase "").length := by decide
  rw [narrBase, String.length_append, String.length_append] at h0
  simp only [String.length_empty] at h0
  omega

set_option maxRecDepth 4096 in
theorem imgBase_length_pos (q : String) : 0 < (imgBase q).length := by
  rw [imgBase, String.length_append, String.length_append]
  have h0 : 0 < (imgBase "").length := by decide
  rw [imgBase, String.length_append, String.length_append] at h0
  simp only [String.length_empty] at h0
  omega

/-- Claim C7: the prompt builder is total; unrecognized categories behave as
"general" and unrecognized styles as "faded-photo"; for a non-empty query
both produced prompts are non-empty. -/
theorem C7_prompts_total :
    (∀ (c q s : String), recognizedCategory c = false →
      getPrompts c q s = getPrompts "general" q s) ∧
    (∀ (c q s : String), recognizedStyle s = false →
      getPrompts c q s = getPrompts c q "faded-photo") ∧
    (∀ (c q s : String), q ≠ "" →
      (getPrompts c q s).1 ≠ "" ∧ (getPrompts c q s).2 ≠ "") := by
  refine ⟨?_, ?_, ?_⟩
  · intro c q s h
    have h0 : ¬ (c = "general" ∨ c = "cartoon" ∨ c = "series" ∨ c = "clip" ∨
        c = "dream" ∨ c = "fairytale" ∨ c = "scifi") := by
      simpa [recognizedCategory] using h
    push_neg at h0
    obtain ⟨hg, h1, h2, h3, h4, h5, h6⟩ := h0
    rw [getPrompts_eq, getPrompts_eq,
      toneClause_default c h1 h2 h3 h4 h5 h6,
      catClause_default c h1 h2 h3 h4 h5 h6,
      toneClause_default "general" (by decide) (by decide) (by decide) (by decide)
        (by decide) (by decide),
      catClause_default "general" (by decide) (by decide) (by decide) (by decide)
        (by decide) (by decide)]
  · intro c q s h
    have h0 : ¬ (s = "faded-photo" ∨ s = "watercolor" ∨ s = "sketch" ∨
        s = "oil-painting" ∨ s = "pixel-art" ∨ s = "3d-render" ∨
        s = "vintage-poster") := by
      simpa [recognizedStyle] using h
    push_neg at h0
    obtain ⟨hf, h1, h2, h3, h4, h5, h6⟩ := h0
    rw [getPrompts_eq, getPrompts_eq, styleClause_default s h1 h2 h3 h4 h5 h6]
  · intro c q s hq
    rw [getPrompts_eq]
    constructor
    · intro hcon
      replace hcon : narrBase q ++ toneClause c = "" := hcon
      have hlen : (narrBase q ++ toneClause c).length = 0 := by
        rw [hcon]
        rfl
      rw [String.length_append] at hlen
      have := narrBase_length_pos q
      omega
    · intro hcon
      replace hcon : imgBase q ++ catClause c ++ styleClause s = "" := hcon
      have hlen : (imgBase q ++ catClause c ++ styleClause s).length = 0 := by
        rw [hcon]
        rfl
      rw [String.length_append, String.length_append] at hlen
      have := imgBase_length_pos q
      omega

/-- Witness for claim C7 at concrete inputs. -/
theorem C7_prompts_total_witness :
    getPrompts "weird" "misket" "odd" = getPrompts "general" "misket" "odd" ∧
    getPrompts "weird" "misket" "odd" = getPrompts "weird" "misket" "faded-photo" ∧
    ((getPrompts "weird" "misket" "odd").1 ≠ "" ∧
     (getPrompts "weird" "misket" "odd").2 ≠ "") :=
  ⟨C7_prompts_total.1 "weird" "misket" "odd" (by decide),
   C7_prompts_total.2.1 "weird" "misket" "odd" (by decide),
   C7_prompts_total.2.2 "weird" "misket" "odd" (by decide)⟩

/-- Claim C8: the image prompt is the base descriptive clause, the category
clause and the style clause in that fixed order, and the narrative prompt is
the base instruction followed by the category tone clause; for
category "general", style "faded-photo" and query "misket, leblebi tozu" the
narrative prompt contains the literal query and ends with the general tone
clause, and the image prompt ends with the faded-photograph clause. -/
theorem C8_prompt_example :
    (∀ (c q s : String), getPrompts c q s =
      (narrBase q ++ toneClause c, imgBase q ++ catClause c ++ styleClause s)) ∧
    (∃ front mid : String,
      (getPrompts "general" "misket, leblebi tozu" "faded-photo").1 =
        front ++ "misket, leblebi tozu" ++ mid ++ toneClause "general") ∧
    (∃ front : String,
      (getPrompts "general" "misket, leblebi tozu" "faded-photo").2 =
        front ++ styleClause "faded-photo") := by
  refine ⟨getPrompts_eq, ?_, ?_⟩
  · refine ⟨"Kullanıcının şu kelimelerinden yola çıkarak 90\x27lar Türkiye\x27sindeki bir çocukluk anısını anlatan, kısa, şiirsel ve nostaljik bir metin yaz: \"",
      "\". Tonu sıcak, biraz hüzünlü ve rüya gibi olsun.", ?_⟩
    rw [getPrompts_eq]
    show narrBase "misket, leblebi tozu" ++ toneClause "general" = _
    rw [narrBase]
  · refine ⟨imgBase "misket, leblebi tozu" ++ catClause "general", ?_⟩
    rw [getPrompts_eq]

set_option maxRecDepth 20000 in
/-- Claim C2 fails on the code: for data containing any code unit above
U+00FF (as every Turkish narrative does), `btoa` raises
InvalidCharacterError, so encode produces no token at all and the round
trip cannot hold; on Latin-1-only data such as the spec example the round
trip does hold. -/
theorem C2_encode_btoa_bug :
    encodeShared turkishShared = none ∧
    (encodeShared exampleShared).bind
      (fun tok => (decodeSharedToken tok).bind sharedOfJson) = some exampleShared := by
  constructor
  · decide
  · decide

/-- Claim C3 is false in its missing-field case: the token for "\x7b\x7d"
(no fields at all) decodes without any error; the handler would read all
five fields as undefined. -/
theorem C3_counterexample :
    (decodeSharedToken (strUnits "e30%3D")).isSome = true ∧
    ((decodeSharedToken (strUnits "e30%3D")).bind
      (fun j => jsonGet j (strUnits "title"))).isNone = true := by
  constructor
  · decide
  · decide

/-- Claim C3 (amended): a token that fails percent-decoding, base64
decoding or structured parsing always yields the caught decode error and
never an uncaught fault (each stage raising is the `none` path of the
model); concrete tokens exercise the three stages. A token that decodes but
misses required fields is NOT an error (see the counterexample). -/
theorem C3_decode_soft_fail :
    (∀ tok, decodeURIComponent tok = none → decodeSharedToken tok = none) ∧
    (∀ tok s, decodeURIComponent tok = some s → atob s = none →
      decodeSharedToken tok = none) ∧
    (∀ tok s b, decodeURIComponent tok = some s → atob s = some b →
      jsonParse b = none → decodeSharedToken tok = none) ∧
    (decodeSharedToken (strUnits "%")).isNone = true ∧
    (decodeSharedToken (strUnits "!!!!")).isNone = true ∧
    (decodeSharedToken (strUnits "ew%3D%3D")).isNone = true := by
  refine ⟨?_, ?_, ?_, by decide, by decide, by decide⟩
  · intro tok h
    simp [decodeSharedToken, h]
  · intro tok s h1 h2
    simp [decodeSharedToken, h1, h2]
  · intro tok s b h1 h2 h3
    simp [decodeSharedToken, h1, h2, h3]

/-- Witness for the amended claim C3 at concrete tokens. -/
theorem C3_decode_soft_fail_witness :
    decodeSharedToken [37] = none ∧
    decodeSharedToken (strUnits "!") = none ∧
    decodeSharedToken (strUnits "ew%3D%3D") = none :=
  ⟨C3_decode_soft_fail.1 [37] rfl,
   C3_decode_soft_fail.2.1 (strUnits "!") (strUnits "!") rfl rfl,
   C3_decode_soft_fail.2.2.1 (strUnits "ew%3D%3D") (strUnits "ew==") [123] rfl rfl rfl⟩

/-! ### Round-trip lemmas for the JSON layer -/

theorem takeWhile_all_append (p : Nat → Bool) :
    ∀ (xs ys : List Nat), (∀ a ∈ xs, p a = true) →
      (xs ++ ys).takeWhile p = xs ++ ys.takeWhile p := by
  intro xs
  induction xs with
  | nil => intro ys h; simp
  | cons a t ih =>
    intro ys h
    rw [List.cons_append, List.takeWhile_cons_of_pos (h a (by simp)), ih ys
      (fun b hb => h b (by simp [hb])), List.cons_append]

theorem dropWhile_all_append (p : Nat → Bool) :
    ∀ (xs ys : List Nat), (∀ a ∈ xs, p a = true) →
      (xs ++ ys).dropWhile p = ys.dropWhile p := by
  intro xs
  induction xs with
  | nil => intro ys h; simp
  | cons a t ih =>
    intro ys h
    rw [List.cons_append, List.dropWhile_cons_of_pos (h a (by simp)), ih ys
      (fun b hb => h b (by simp [hb]))]

theorem skipWs_not (c : Nat) (r : List Nat) (h : jsonWs c = false) :
    skipWs (c :: r) = c :: r := by
  rw [skipWs, List.dropWhile_cons_of_neg (by simp [h])]

theorem natDecAux_ne_nil (fuel n : Nat) : natDecAux fuel n ≠ [] := by
  match fuel with
  | 0 => simp [natDecAux]
  | f + 1 =>
    by_cases h : n < 10
    · simp [natDecAux, h]
    · simp [natDecAux, h]

theorem natDecAux_digits (fuel : Nat) :
    ∀ n, ∀ c ∈ natDecAux fuel n, isDigit c = true := by
  induction fuel with
  | zero =>
    intro n c hc
    simp [natDecAux] at hc
    simp [isDigit, hc]
    omega
  | succ f ih =>
    intro n c hc
    by_cases h : n < 10
    · simp [natDecAux, h] at hc
      simp [isDigit, hc]
      omega
    · simp only [natDecAux, if_neg h, List.mem_append] at hc
      rcases hc with hc | hc
      · exact ih (n / 10) c hc
      · simp at hc
        simp [isDigit, hc]
        omega

theorem natDecAux_head_nonzero (fuel : Nat) :
    ∀ n, 1 ≤ n → n ≤ fuel → (natDecAux fuel n).head? ≠ some 48 := by
  induction fuel with
  | zero => intro n h1 h2; omega
  | succ f ih =>
    intro n h1 h2
    by_cases h : n < 10
    · simp [natDecAux, h]
      omega
    · have hne := natDecAux_ne_nil f (n / 10)
      have hd : (natDecAux f (n / 10) ++ [48 + n % 10]).head? =
          (natDecAux f (n / 10)).head? := by
        match hh : natDecAux f (n / 10) with
        | [] => exact absurd hh hne
        | x :: xs => simp
      simp only [natDecAux, if_neg h, hd]
      exact ih (n / 10) (by omega) (by
        have := Nat.div_lt_self (by omega : 0 < n) (by omega : 1 < 10)
        omega)

theorem decValue_natDecAux (fuel : Nat) :
    ∀ n acc, n ≤ fuel →
      List.foldl (fun acc d => acc * 10 + (d - 48)) acc (natDecAux fuel n) =
        acc * 10 ^ (natDecAux fuel n).length + n := by
  induction fuel with
  | zero =>
    intro n acc h
    have : n = 0 := by omega
    subst this
    simp [natDecAux]
  | succ f ih =>
    intro n acc h
    by_cases hn : n < 10
    · simp [natDecAux, hn]
    · have hdiv : n / 10 ≤ f := by
        have := Nat.div_lt_self (by omega : 0 < n) (by omega : 1 < 10)
        omega
      simp only [natDecAux, if_neg hn, List.foldl_append, List.length_append,
        List.foldl_cons, List.foldl_nil, List.length_cons, List.length_nil]
      rw [ih (n / 10) acc hdiv]
      have hmod : 48 + n % 10 - 48 = n % 10 := by omega
      rw [hmod, pow_succ]
      have : acc * (10 ^ (natDecAux f (n / 10)).length * 10) =
          acc * 10 ^ (natDecAux f (n / 10)).length * 10 := by ring
      rw [this]
      omega

theorem decValue_natDec (n : Nat) : decValue (natDec n) = n := by
  rw [decValue, natDec, decValue_natDecAux n n 0 le_rfl]
  simp

theorem natDec_digits (n : Nat) : ∀ c ∈ natDec n, isDigit c = true :=
  natDecAux_digits n n

theorem takeWhile_digits_natDec (n : Nat) (rest : List Nat) (hr : numStop rest) :
    (natDec n ++ rest).takeWhile isDigit = natDec n ∧
    (natDec n ++ rest).dropWhile isDigit = rest := by
  constructor
  · rw [takeWhile_all_append isDigit (natDec n) rest (natDec_digits n)]
    match rest, hr with
    | [], _ => simp
    | c :: r, hr =>
      rw [List.takeWhile_cons_of_neg (by simp [(hr c rfl).1]), List.append_nil]
  · rw [dropWhile_all_append isDigit (natDec n) rest (natDec_digits n)]
    match rest, hr with
    | [], _ => simp
    | c :: r, hr =>
      rw [List.dropWhile_cons_of_neg (by simp [(hr c rfl).1])]

theorem parseNumber_natDec (n : Nat) (rest : List Nat) (hr : numStop rest) :
    parseNumber (natDec n ++ rest) = some (natDec n, rest) := by
  obtain ⟨htake, hdrop⟩ := takeWhile_digits_natDec n rest hr
  have hbody : parseNumberBody (natDec n ++ rest) = some (natDec n, rest) := by
    rw [parseNumberBody, htake, hdrop]
    rw [if_neg (by exact natDecAux_ne_nil n n : ¬ natDec n = [])]
    have hlead : ¬ (1 < (natDec n).length ∧ (natDec n).head? = some 48) := by
      by_cases h0 : n = 0
      · subst h0
        intro hcon
        simp [natDec, natDecAux] at hcon
      · intro hcon
        exact natDecAux_head_nonzero n n (by omega) le_rfl hcon.2
    rw [if_neg hlead]
    match rest, hr with
    | [], _ => simp [parseFracPart]
    | c :: r, hr =>
      obtain ⟨hd, hdot, he, hE⟩ := hr c rfl
      simp only [parseFracPart, if_neg hdot, parseExpPart,
        if_neg (by simp [he, hE] : ¬ (c = 101 ∨ c = 69))]
  match hh : natDec n, natDec_digits n, hbody with
  | c :: cs, hdig, hbody =>
    have hc : isDigit c = true := hdig c (by simp)
    have hc45 : ¬ c = 45 := by
      simp [isDigit] at hc
      omega
    rw [List.cons_append, parseNumber]
    simp only [if_neg hc45]
    rw [← List.cons_append]
    exact hbody
  | [], hdig, _ => exact absurd hh (natDecAux_ne_nil n n)

theorem hexVal_hexLow (x : Nat) (h : x < 16) : hexVal (hexLow x) = some x := by
  interval_cases x <;> decide

theorem psb_quote (rest : List Nat) : parseStringBody (34 :: rest) = some ([], rest) := by
  rw [parseStringBody.eq_def]
  dsimp only
  rw [if_pos (rfl : (34:Nat) = 34)]

theorem psb_esc (e v : Nat) (rest : List Nat) (he : escMap e = some v) (hne : ¬ e = 117) :
    parseStringBody (92 :: e :: rest) =
      match parseStringBody rest with
      | some (t, r) => some (v :: t, r)
      | none => none := by
  rw [parseStringBody.eq_def]
  dsimp only
  rw [if_neg (by decide : ¬ (92:Nat) = 34), if_pos (rfl : (92:Nat) = 92), if_neg hne, he]

theorem psb_u (h1 h2 h3 h4 a b cc d : Nat) (rest : List Nat)
    (e1 : hexVal h1 = some a) (e2 : hexVal h2 = some b)
    (e3 : hexVal h3 = some cc) (e4 : hexVal h4 = some d) :
    parseStringBody (92 :: 117 :: h1 :: h2 :: h3 :: h4 :: rest) =
      match parseStringBody rest with
      | some (t, r) => some ((a * 4096 + b * 256 + cc * 16 + d) :: t, r)
      | none => none := by
  rw [parseStringBody.eq_def]
  dsimp only
  rw [if_neg (by decide : ¬ (92:Nat) = 34), if_pos (rfl : (92:Nat) = 92),
    if_pos (rfl : (117:Nat) = 117)]
  rw [e1, e2, e3, e4]

theorem psb_lit (c : Nat) (rest : List Nat) (h34 : ¬ c = 34) (h92 : ¬ c = 92)
    (hge : ¬ c < 32) :
    parseStringBody (c :: rest) =
      match parseStringBody rest with
      | some (t, r) => some (c :: t, r)
      | none => none := by
  rw [parseStringBody.eq_def]
  dsimp only
  rw [if_neg h34, if_neg h92, if_neg hge]

/-- Unescaping a \u escape of a code unit below 0x10000 recovers it. -/
theorem psb_escHex (c : Nat) (hc : c < 65536) (rest : List Nat) :
    parseStringBody (escHex c ++ rest) =
      match parseStringBody rest with
      | some (t, r) => some (c :: t, r)
      | none => none := by
  rw [show escHex c ++ rest = 92 :: 117 :: hexLow (c / 4096 % 16) :: hexLow (c / 256 % 16) ::
      hexLow (c / 16 % 16) :: hexLow (c % 16) :: rest from by simp [escHex]]
  rw [psb_u _ _ _ _ _ _ _ _ rest (hexVal_hexLow _ (by omega)) (hexVal_hexLow _ (by omega))
    (hexVal_hexLow _ (by omega)) (hexVal_hexLow _ (by omega))]
  rw [show c / 4096 % 16 * 4096 + c / 256 % 16 * 256 + c / 16 % 16 * 16 + c % 16 = c
    from by omega]

/-- Parsing undoes stringify escaping for any sequence of code units. -/
theorem parseStringBody_escape (fuel : Nat) :
    ∀ s : List Nat, s.length ≤ fuel → wfStr s →
      ∀ rest, parseStringBody (escapeStringGo fuel s ++ (34 :: rest)) = some (s, rest) := by
  induction fuel with
  | zero =>
    intro s hs hwf rest
    have : s = [] := List.length_eq_zero.mp (Nat.le_zero.mp hs)
    subst this
    rw [show escapeStringGo 0 [] = [] from rfl, List.nil_append, psb_quote]
  | succ fuel ih =>
    intro s hs hwf rest
    match s with
    | [] => rw [show escapeStringGo (fuel + 1) [] = [] from rfl, List.nil_append, psb_quote]
    | c :: cs =>
      have hcs : cs.length ≤ fuel := by simpa using hs
      have hwfc : c < 65536 := hwf c (by simp)
      have hwfcs : wfStr cs := fun a ha => hwf a (by simp [ha])
      have hIH := ih cs hcs hwfcs rest
      by_cases h34 : c = 34
      · subst h34
        rw [show escapeStringGo (fuel + 1) (34 :: cs) = 92 :: 34 :: escapeStringGo fuel cs
            from by simp [escapeStringGo],
          show (92 :: 34 :: escapeStringGo fuel cs) ++ (34 :: rest) =
            92 :: 34 :: (escapeStringGo fuel cs ++ (34 :: rest)) from by simp,
          psb_esc 34 34 _ (by decide) (by decide), hIH]
      · by_cases h92 : c = 92
        · subst h92
          rw [show escapeStringGo (fuel + 1) (92 :: cs) = 92 :: 92 :: escapeStringGo fuel cs
              from by simp [escapeStringGo],
            show (92 :: 92 :: escapeStringGo fuel cs) ++ (34 :: rest) =
              92 :: 92 :: (escapeStringGo fuel cs ++ (34 :: rest)) from by simp,
            psb_esc 92 92 _ (by decide) (by decide), hIH]
        · by_cases h8 : c = 8
          · subst h8
            rw [show escapeStringGo (fuel + 1) (8 :: cs) = 92 :: 98 :: escapeStringGo fuel cs
                from by simp [escapeStringGo],
              show (92 :: 98 :: escapeStringGo fuel cs) ++ (34 :: rest) =
                92 :: 98 :: (escapeStringGo fuel cs ++ (34 :: rest)) from by simp,
              psb_esc 98 8 _ (by decide) (by decide), hIH]
          · by_cases h9 : c = 9
            · subst h9
              rw [show escapeStringGo (fuel + 1) (9 :: cs) = 92 :: 116 :: escapeStringGo fuel cs
                  from by simp [escapeStringGo],
                show (92 :: 116 :: escapeStringGo fuel cs) ++ (34 :: rest) =
                  92 :: 116 :: (escapeStringGo fuel cs ++ (34 :: rest)) from by simp,
                psb_esc 116 9 _ (by decide) (by decide), hIH]
            · by_cases h10 : c = 10
              · subst h10
                rw [show escapeStringGo (fuel + 1) (10 :: cs) =
                      92 :: 110 :: escapeStringGo fuel cs from by simp [escapeStringGo],
                  show (92 :: 110 :: escapeStringGo fuel cs) ++ (34 :: rest) =
                    92 :: 110 :: (escapeStringGo fuel cs ++ (34 :: rest)) from by simp,
                  psb_esc 110 10 _ (by decide) (by decide), hIH]
              · by_cases h12 : c = 12
                · subst h12
                  rw [show escapeStringGo (fuel + 1) (12 :: cs) =
                        92 :: 102 :: escapeStringGo fuel cs from by simp [escapeStringGo],
                    show (92 :: 102 :: escapeStringGo fuel cs) ++ (34 :: rest) =
                      92 :: 102 :: (escapeStringGo fuel cs ++ (34 :: rest)) from by simp,
                    psb_esc 102 12 _ (by decide) (by decide), hIH]
                · by_cases h13 : c = 13
                  · subst h13
                    rw [show escapeStringGo (fuel + 1) (13 :: cs) =
                          92 :: 114 :: escapeStringGo fuel cs from by simp [escapeStringGo],
                      show (92 :: 114 :: escapeStringGo fuel cs) ++ (34 :: rest) =
                        92 :: 114 :: (escapeStringGo fuel cs ++ (34 :: rest)) from by simp,
                      psb_esc 114 13 _ (by decide) (by decide), hIH]
                  · by_cases hctl : c < 32
                    · rw [show escapeStringGo (fuel + 1) (c :: cs) =
                            escHex c ++ escapeStringGo fuel cs from by
                          simp [escapeStringGo, h34, h92, h8, h9, h10, h12, h13, hctl],
                        List.append_assoc, psb_escHex c hwfc, hIH]
                    · by_cases hhs : 0xD800 ≤ c ∧ c ≤ 0xDBFF
                      · match cs, hcs, hwfcs, hIH with
                        | [], _, _, _ =>
                          rw [show escapeStringGo (fuel + 1) [c] = escHex c from by
                              simp [escapeStringGo, h34, h92, h8, h9, h10, h12, h13, hctl, hhs],
                            psb_escHex c hwfc, psb_quote]
                        | d :: cs2, hcs, hwfcs, hIH =>
                          have hwd : d < 65536 := hwfcs d (by simp)
                          have hwfcs2 : wfStr cs2 := fun a ha => hwfcs a (by simp [ha])
                          have hcs2 : cs2.length ≤ fuel := by
                            simp at hcs
                            omega
                          have hIH2 := ih cs2 hcs2 hwfcs2 rest
                          by_cases hls : 0xDC00 ≤ d ∧ d ≤ 0xDFFF
                          · rw [show escapeStringGo (fuel + 1) (c :: d :: cs2) =
                                  c :: d :: escapeStringGo fuel cs2 from by
                                simp [escapeStringGo, h34, h92, h8, h9, h10, h12, h13, hctl,
                                  hhs, hls],
                              show (c :: d :: escapeStringGo fuel cs2) ++ (34 :: rest) =
                                c :: d :: (escapeStringGo fuel cs2 ++ (34 :: rest)) from by simp,
                              psb_lit c _ h34 h92 hctl,
                              psb_lit d _ (by omega) (by omega) (by omega), hIH2]
                          · rw [show escapeStringGo (fuel + 1) (c :: d :: cs2) =
                                  escHex c ++ escapeStringGo fuel (d :: cs2) from by
                                simp [escapeStringGo, h34, h92, h8, h9, h10, h12, h13, hctl,
                                  hhs, hls],
                              List.append_assoc, psb_escHex c hwfc, hIH]
                      · by_cases hlo : 0xDC00 ≤ c ∧ c ≤ 0xDFFF
                        · rw [show escapeStringGo (fuel + 1) (c :: cs) =
                                escHex c ++ escapeStringGo fuel cs from by
                              simp [escapeStringGo, h34, h92, h8, h9, h10, h12, h13, hctl,
                                hhs, hlo],
                            List.append_assoc, psb_escHex c hwfc, hIH]
                        · rw [show escapeStringGo (fuel + 1) (c :: cs) =
                                c :: escapeStringGo fuel cs from by
                              simp [escapeStringGo, h34, h92, h8, h9, h10, h12, h13, hctl,
                                hhs, hlo],
                            show (c :: escapeStringGo fuel cs) ++ (34 :: rest) =
                              c :: (escapeStringGo fuel cs ++ (34 :: rest)) from by simp,
                            psb_lit c _ h34 h92 hctl, hIH]

theorem parseStringBody_printStr (v rest : List Nat) (hv : wfStr v) :
    parseStringBody (escapeString v ++ (34 :: rest)) = some (v, rest) :=
  parseStringBody_escape v.length v le_rfl hv rest

/-- Parsing a serialized string value. -/
theorem pv_str (f : Nat) (v rest : List Nat) (hv : wfStr v) :
    parseValueF (f + 1) (printStr v ++ rest) = some (Json.str v, rest) := by
  rw [show printStr v ++ rest = 34 :: (escapeString v ++ (34 :: rest)) from by
    simp [printStr]]
  rw [parseValueF.eq_def]
  dsimp only
  rw [skipWs_not 34 _ (by decide)]
  dsimp only
  rw [if_neg (by decide : ¬ (34:Nat) = 123), if_neg (by decide : ¬ (34:Nat) = 91),
    if_pos (rfl : (34:Nat) = 34)]
  rw [parseStringBody_printStr v rest hv]

theorem isDigit_not_jsonWs (c : Nat) (hc : isDigit c = true) : jsonWs c = false := by
  simp [isDigit] at hc
  simp [jsonWs]
  omega

/-- Parsing a serialized natural number value. -/
theorem pv_num (f n : Nat) (rest : List Nat) (hr : numStop rest) :
    parseValueF (f + 1) (natDec n ++ rest) = some (Json.num (natDec n), rest) := by
  have hnum := parseNumber_natDec n rest hr
  match hh : natDec n, natDec_digits n, hnum with
  | c :: cs, hdig, hnum =>
    have hc : isDigit c = true := hdig c (by simp)
    have hcb : 48 ≤ c ∧ c ≤ 57 := by simpa [isDigit] using hc
    rw [List.cons_append, parseValueF.eq_def]
    dsimp only
    rw [skipWs_not c _ (isDigit_not_jsonWs c hc)]
    dsimp only
    rw [if_neg (by omega : ¬ c = 123), if_neg (by omega : ¬ c = 91),
      if_neg (by omega : ¬ c = 34), if_neg (by omega : ¬ c = 116),
      if_neg (by omega : ¬ c = 102), if_neg (by omega : ¬ c = 110),
      if_pos (Or.inr hc : c = 45 ∨ isDigit c = true)]
    rw [← List.cons_append, hnum]
  | [], _, _ => exact absurd hh (natDecAux_ne_nil n n)

theorem pv_obj_open (f : Nat) (X : List Nat) :
    parseValueF (f + 1) (123 :: X) = parseMembersF f X := by
  rw [parseValueF.eq_def]
  dsimp only
  rw [skipWs_not 123 _ (by decide)]
  dsimp only
  rw [if_pos (rfl : (123:Nat) = 123)]

theorem pv_arr_open (f : Nat) (X : List Nat) :
    parseValueF (f + 1) (91 :: X) = parseElemsF f X := by
  rw [parseValueF.eq_def]
  dsimp only
  rw [skipWs_not 91 _ (by decide)]
  dsimp only
  rw [if_neg (by decide : ¬ (91:Nat) = 123), if_pos (rfl : (91:Nat) = 91)]

theorem pmr_close (f : Nat) (rest : List Nat) :
    parseMembersRestF (f + 1) (125 :: rest) = some ([], rest) := by
  rw [parseMembersRestF.eq_def]
  dsimp only
  rw [skipWs_not 125 _ (by decide)]
  dsimp only
  rw [if_pos (rfl : (125:Nat) = 125)]

/-- One further string-valued member of an object body. -/
theorem pmr_str (f : Nat) (key val after : List Nat) (hkey : wfStr key) (hval : wfStr val) :
    parseMembersRestF (f + 2) (44 :: (printStr key ++ (58 :: (printStr val ++ after)))) =
      match parseMembersRestF (f + 1) after with
      | some (tl, r) => some ((key, Json.str val) :: tl, r)
      | none => none := by
  rw [show f + 2 = (f + 1) + 1 from rfl, parseMembersRestF.eq_def]
  dsimp only
  rw [skipWs_not 44 _ (by decide)]
  dsimp only
  rw [if_neg (by decide : ¬ (44:Nat) = 125), if_pos (rfl : (44:Nat) = 44)]
  rw [show printStr key ++ (58 :: (printStr val ++ after)) =
    34 :: (escapeString key ++ (34 :: (58 :: (printStr val ++ after)))) from by
    simp [printStr]]
  rw [skipWs_not 34 _ (by decide)]
  dsimp only
  rw [if_pos (rfl : (34:Nat) = 34)]
  rw [parseStringBody_printStr key _ hkey]
  dsimp only
  rw [skipWs_not 58 _ (by decide)]
  dsimp only
  rw [if_pos (rfl : (58:Nat) = 58)]
  rw [pv_str f val after hval]

/-- Opening an object whose first member is a number-valued field. -/
theorem pm_open_num (f n : Nat) (key after : List Nat) (hkey : wfStr key)
    (hafter : numStop after) :
    parseMembersF (f + 2) (printStr key ++ (58 :: (natDec n ++ after))) =
      match parseMembersRestF (f + 1) after with
      | some (tl, r) => some (Json.obj ((key, Json.num (natDec n)) :: tl), r)
      | none => none := by
  rw [show printStr key ++ (58 :: (natDec n ++ after)) =
    34 :: (escapeString key ++ (34 :: (58 :: (natDec n ++ after)))) from by
    simp [printStr]]
  rw [show f + 2 = (f + 1) + 1 from rfl, parseMembersF.eq_def]
  dsimp only
  rw [skipWs_not 34 _ (by decide)]
  dsimp only
  rw [if_neg (by decide : ¬ (34:Nat) = 125), if_pos (rfl : (34:Nat) = 34)]
  rw [parseStringBody_printStr key _ hkey]
  dsimp only
  rw [skipWs_not 58 _ (by decide)]
  dsimp only
  rw [if_pos (rfl : (58:Nat) = 58)]
  rw [pv_num f n after hafter]

theorem numStop_44 (X : List Nat) : numStop (44 :: X) := by
  intro c hc
  simp at hc
  subst hc
  exact ⟨by decide, by decide, by decide, by decide⟩

theorem wf_strUnits (s : String) (h : ∀ ch ∈ s.data, ch.toNat < 65536) :
    wfStr (strUnits s) := by
  intro c hc
  simp [strUnits] at hc
  obtain ⟨ch, hch, rfl⟩ := hc
  exact h ch hch

/-- Parsing a serialized Memory object gives its Json value. -/
theorem pv_memory (f : Nat) (m : Memory) (rest : List Nat) (hm : wfMemory m) :
    parseValueF (f + 9) (printMemory m ++ rest) = some (jsonOfMemory m, rest) := by
  obtain ⟨ht, hq, hc, hi, hr, hu⟩ := hm
  have hnorm : printMemory m ++ rest =
      123 :: (printStr (strUnits "id") ++ (58 :: (natDec m.id ++ (44 :: (printStr (strUnits "title") ++ (58 :: (printStr m.title ++ (44 :: (printStr (strUnits "query") ++ (58 :: (printStr m.query ++ (44 :: (printStr (strUnits "category") ++ (58 :: (printStr m.category ++ (44 :: (printStr (strUnits "imageStyle") ++ (58 :: (printStr m.imageStyle ++ (44 :: (printStr (strUnits "resultText") ++ (58 :: (printStr m.resultText ++ (44 :: (printStr (strUnits "imageUrl") ++ (58 :: (printStr m.imageUrl ++ (125 :: rest)))))))))))))))))))))))))))) := by
    simp [printMemory]
  rw [hnorm]
  rw [show f + 9 = (f + 8) + 1 from rfl, pv_obj_open (f + 8)]
  rw [show f + 8 = (f + 6) + 2 from rfl,
    pm_open_num (f + 6) m.id (strUnits "id") _ (by decide) (numStop_44 _)]
  rw [show f + 6 + 1 = (f + 5) + 2 from rfl,
    pmr_str (f + 5) (strUnits "title") m.title _ (by decide) ht]
  rw [show f + 5 + 1 = (f + 4) + 2 from rfl,
    pmr_str (f + 4) (strUnits "query") m.query _ (by decide) hq]
  rw [show f + 4 + 1 = (f + 3) + 2 from rfl,
    pmr_str (f + 3) (strUnits "category") m.category _ (by decide) hc]
  rw [show f + 3 + 1 = (f + 2) + 2 from rfl,
    pmr_str (f + 2) (strUnits "imageStyle") m.imageStyle _ (by decide) hi]
  rw [show f + 2 + 1 = (f + 1) + 2 from rfl,
    pmr_str (f + 1) (strUnits "resultText") m.resultText _ (by decide) hr]
  rw [show f + 1 + 1 = f + 2 from rfl, pmr_str f (strUnits "imageUrl") m.imageUrl _
    (by decide) hu]
  rw [pmr_close f rest]
  rfl

theorem per_close (f : Nat) (rest : List Nat) :
    parseElemsRestF (f + 1) (93 :: rest) = some ([], rest) := by
  rw [parseElemsRestF.eq_def]
  dsimp only
  rw [skipWs_not 93 _ (by decide)]
  dsimp only
  rw [if_pos (rfl : (93:Nat) = 93)]

/-- One further Memory element of an array body. -/
theorem per_cons (f : Nat) (m : Memory) (after : List Nat) (hm : wfMemory m) :
    parseElemsRestF (f + 10) (44 :: (printMemory m ++ after)) =
      match parseElemsRestF (f + 9) after with
      | some (tl, r) => some (jsonOfMemory m :: tl, r)
      | none => none := by
  rw [show f + 10 = (f + 9) + 1 from rfl, parseElemsRestF.eq_def]
  dsimp only
  rw [skipWs_not 44 _ (by decide)]
  dsimp only
  rw [if_neg (by decide : ¬ (44:Nat) = 93), if_pos (rfl : (44:Nat) = 44)]
  rw [pv_memory f m after hm]

theorem per_tail (tl : List Memory) :
    ∀ (f : Nat) (rest : List Nat), (∀ m ∈ tl, wfMemory m) →
      parseElemsRestF (10 * tl.length + 1 + f) (printMemTail tl ++ (93 :: rest)) =
        some (tl.map jsonOfMemory, rest) := by
  induction tl with
  | nil =>
    intro f rest h
    rw [show printMemTail [] ++ (93 :: rest) = 93 :: rest from by simp [printMemTail]]
    rw [show 10 * ([] : List Memory).length + 1 + f = f + 1 from by
      simp only [List.length_nil]
      omega]
    exact per_close f rest
  | cons m tl ih =>
    intro f rest h
    have hfm : wfMemory m := h m (by simp)
    have htl : ∀ x ∈ tl, wfMemory x := fun x hx => h x (by simp [hx])
    rw [show printMemTail (m :: tl) ++ (93 :: rest) =
      44 :: (printMemory m ++ (printMemTail tl ++ (93 :: rest))) from by
      simp [printMemTail]]
    rw [show 10 * (m :: tl).length + 1 + f = (10 * tl.length + 1 + f) + 10 from by
      simp only [List.length_cons]
      ring]
    rw [per_cons (10 * tl.length + 1 + f) m _ hfm]
    rw [show 10 * tl.length + 1 + f + 9 = 10 * tl.length + 1 + (f + 9) from by omega]
    rw [ih (f + 9) rest htl]
    rfl

/-- Opening a serialized array whose first element is a Memory object. -/
theorem pe_open (f : Nat) (m : Memory) (X : List Nat) (hm : wfMemory m) :
    parseElemsF (f + 10) (printMemory m ++ X) =
      match parseElemsRestF (f + 9) X with
      | some (tl, r) => some (Json.arr (jsonOfMemory m :: tl), r)
      | none => none := by
  have hT : printMemory m ++ X = 123 :: (printStr (strUnits "id") ++ (58 :: (natDec m.id ++ (44 :: (printStr (strUnits "title") ++ (58 :: (printStr m.title ++ (44 :: (printStr (strUnits "query") ++ (58 :: (printStr m.query ++ (44 :: (printStr (strUnits "category") ++ (58 :: (printStr m.category ++ (44 :: (printStr (strUnits "imageStyle") ++ (58 :: (printStr m.imageStyle ++ (44 :: (printStr (strUnits "resultText") ++ (58 :: (printStr m.resultText ++ (44 :: (printStr (strUnits "imageUrl") ++ (58 :: (printStr m.imageUrl ++ (125 :: X)))))))))))))))))))))))))))) := by
    simp [printMemory]
  rw [show f + 10 = (f + 9) + 1 from rfl, parseElemsF.eq_def]
  dsimp only
  rw [show skipWs (printMemory m ++ X) = 123 :: (printStr (strUnits "id") ++ (58 :: (natDec m.id ++ (44 :: (printStr (strUnits "title") ++ (58 :: (printStr m.title ++ (44 :: (printStr (strUnits "query") ++ (58 :: (printStr m.query ++ (44 :: (printStr (strUnits "category") ++ (58 :: (printStr m.category ++ (44 :: (printStr (strUnits "imageStyle") ++ (58 :: (printStr m.imageStyle ++ (44 :: (printStr (strUnits "resultText") ++ (58 :: (printStr m.resultText ++ (44 :: (printStr (strUnits "imageUrl") ++ (58 :: (printStr m.imageUrl ++ (125 :: X)))))))))))))))))))))))))))) from by
    rw [hT]
    exact skipWs_not 123 _ (by decide)]
  dsimp only
  rw [if_neg (by decide : ¬ (123:Nat) = 93)]
  rw [pv_memory f m X hm]

theorem printMemory_length_ge (m : Memory) : 20 ≤ (printMemory m).length := by
  have h1 : (printStr (strUnits "id")).length = 4 := rfl
  have h2 : (printStr (strUnits "title")).length = 7 := rfl
  have h3 : (printStr (strUnits "query")).length = 7 := rfl
  simp only [printMemory, List.length_append, h1, h2, h3, List.length_cons,
    List.length_nil]
  omega

theorem printMemTail_length_ge (tl : List Memory) :
    10 * tl.length ≤ (printMemTail tl).length := by
  induction tl with
  | nil => simp [printMemTail]
  | cons m r ih =>
    have := printMemory_length_ge m
    simp only [printMemTail, List.length_cons, List.length_append]
    omega

/-- JSON.parse undoes JSON.stringify on a serialized history list. -/
theorem jsonParse_printHistory (l : List Memory) (hl : ∀ m ∈ l, wfMemory m) :
    jsonParse (printHistory l) = some (Json.arr (l.map jsonOfMemory)) := by
  match l, hl with
  | [], _ => rfl
  | m :: tl, hl =>
    have hm : wfMemory m := hl m (by simp)
    have htl : ∀ x ∈ tl, wfMemory x := fun x hx => hl x (by simp [hx])
    have hlen : 10 * tl.length + 11 ≤ (printHistory (m :: tl)).length + 1 := by
      have h1 : (printHistory (m :: tl)).length =
          2 + (printMemory m).length + (printMemTail tl).length := by
        simp [printHistory]
        omega
      have h2 : 20 ≤ (printMemory m).length := printMemory_length_ge m
      have h3 : 10 * tl.length ≤ (printMemTail tl).length := printMemTail_length_ge tl
      omega
    obtain ⟨f0, hf0⟩ : ∃ f0, (printHistory (m :: tl)).length + 1 =
        10 * tl.length + f0 + 11 := ⟨(printHistory (m :: tl)).length + 1 -
          (10 * tl.length + 11), by omega⟩
    rw [jsonParse, hf0]
    rw [show printHistory (m :: tl) =
      91 :: (printMemory m ++ (printMemTail tl ++ (93 :: []))) from by
      simp [printHistory]]
    rw [show 10 * tl.length + f0 + 11 = (10 * tl.length + f0 + 10) + 1 from rfl]
    rw [pv_arr_open (10 * tl.length + f0 + 10) _]
    rw [pe_open (10 * tl.length + f0) m _ hm]
    rw [show 10 * tl.length + f0 + 9 = 10 * tl.length + 1 + (f0 + 8) from by omega]
    rw [per_tail tl (f0 + 8) [] htl]
    rfl

set_option maxRecDepth 4096 in
theorem memoryOfJson_inv (m : Memory) : memoryOfJson (jsonOfMemory m) = some m := by
  have h : memoryOfJson (jsonOfMemory m) =
      some (Memory.mk (decValue (natDec m.id)) m.title m.query m.category m.imageStyle
        m.resultText m.imageUrl) := rfl
  rw [h, decValue_natDec]

theorem memoriesOfJsonGo_map (l : List Memory) :
    memoriesOfJsonGo (l.map jsonOfMemory) = some l := by
  induction l with
  | nil => rfl
  | cons m tl ih =>
    rw [List.map_cons, memoriesOfJsonGo, memoryOfJson_inv, ih]

/-- Claim C6: appending M1 then M2 puts each at the head, the whole list is
persisted, and a subsequent load of the snapshot parses back exactly
[M2, M1] followed by the prior in-memory contents. -/
theorem C6_history_append :
    ∀ (st : HistoryStore) (M1 M2 : Memory),
      wfMemory M1 → wfMemory M2 → (∀ m ∈ st.hist, wfMemory m) →
      (appendMemory (appendMemory st M1) M2).hist = M2 :: M1 :: st.hist ∧
      (loadHistory (appendMemory (appendMemory st M1) M2).storage).1.bind memoriesOfJson =
        some (M2 :: M1 :: st.hist) := by
  intro st M1 M2 h1 h2 hall
  have hwf : ∀ m ∈ M2 :: M1 :: st.hist, wfMemory m := by
    intro m hm
    simp at hm
    rcases hm with rfl | rfl | hm
    · exact h2
    · exact h1
    · exact hall m hm
  constructor
  · rfl
  · show (loadHistory (some (printHistory (M2 :: M1 :: st.hist)))).1.bind memoriesOfJson =
      some (M2 :: M1 :: st.hist)
    rw [loadHistory]
    rw [if_neg (by
      rw [show printHistory (M2 :: M1 :: st.hist) =
        91 :: ((printMemory M2 ++ printMemTail (M1 :: st.hist)) ++ [93]) from rfl]
      simp : ¬ (printHistory (M2 :: M1 :: st.hist)).isEmpty = true)]
    rw [jsonParse_printHistory (M2 :: M1 :: st.hist) hwf]
    show memoriesOfJson (Json.arr ((M2 :: M1 :: st.hist).map jsonOfMemory)) = _
    rw [memoriesOfJson, memoriesOfJsonGo_map]

/-- Witness for claim C6 at concrete memories (with Turkish text). -/
theorem C6_history_append_witness :
    (appendMemory (appendMemory (HistoryStore.mk [] none) wMem1) wMem2).hist =
      wMem2 :: wMem1 :: [] ∧
    (loadHistory (appendMemory (appendMemory (HistoryStore.mk [] none) wMem1)
        wMem2).storage).1.bind memoriesOfJson = some (wMem2 :: wMem1 :: []) :=
  C6_history_append (HistoryStore.mk [] none) wMem1 wMem2 (by decide) (by decide)
    (by intro m hm; exact absurd hm (List.not_mem_nil m))

end AniMakinesi

